import Mathlib

/-!
Verification of the websocket-cpp server's connection-lifecycle state machine.

The C++ sources (`ServerImpl.hpp`, `details/Connection.hpp`) implement a
single-threaded asynchronous event loop: all mutation of `Connection` and
`ConnectionTable` state happens inside one execution context, driven by the
completion handlers of asynchronous operations and by work items posted from
the public API.  We embed this as an executable transition system:

* `Sys` is the whole observable state: the connection table, the sets of
  connection ids with an outstanding asynchronous read/write (one per
  `async_read`/`async_write` registered and not yet completed), the trace of
  application callback invocations (`events`), the log trace, the trace of
  frames successfully written to the transport (`wire`), and the
  server-level flags of `ServerImpl`.
* `Act` enumerates the atomic units the event loop can execute: an accept
  (with the handshake outcome), the completion of an outstanding read or
  write (with its outcome), a posted `send`/`drop` work item, and `stop`.
* `step` runs one action, translated line by line from the C++ handlers.

The `ub` flag is set when a completion handler fires for a connection that is
no longer in the table — in C++ this is exactly the use-after-free the
lifecycle flags are meant to prevent; we prove it never happens.
-/

/-- Frame opcodes (`Opcode` of the sources, enum over the RFC 6455 space). -/
inductive Opcode where
  | Continuation
  | Text
  | Binary
  | Close
  | Ping
  | Pong
  | Reserved
deriving DecidableEq, Repr

/-- Application events (`Event` of the sources). -/
inductive Event where
  | NewConnection
  | Message
  | Disconnect
deriving DecidableEq, Repr

/-- An outgoing frame as stored in the send queue (`ServerFrame`: header bytes
are a function of opcode and payload, so opcode + payload determine it). -/
structure ServerFrame where
  m_opcode : Opcode
  m_data : String
deriving DecidableEq, Repr

/-- The state of one `Connection<Callback>`: its id, the three lifecycle
flags and the FIFO send queue (`std::deque<ServerFrame> m_sendQueue`). -/
structure Connection where
  m_id : Nat
  m_isSending : Bool := false
  m_isReading : Bool := false
  m_isClosed : Bool := false
  m_sendQueue : List ServerFrame := []
deriving DecidableEq, Repr

/-- `ConnectionTable<Callback>`: last allocated id and the id-keyed map of
exclusively-owned connections (association list standing for the
`unordered_map`). -/
structure ConnectionTable where
  m_lastConnId : Nat := 0
  m_connections : List (Nat × Connection) := []
deriving DecidableEq, Repr

/-- Log lines emitted by the code paths we model (identified by shape, not
by their exact formatted text). -/
inductive LogMsg where
  | unknownOpcode (id : Nat) (op : Opcode)
  | invalidFrame (id : Nat)
  | recvError (id : Nat)
  | sendError (id : Nat)
  | handshakeFailed
deriving DecidableEq, Repr

/-- The result a completed `async_read` presents to `onRecvComplete`:
an error (`ec` set; `eof` tells whether it is `boost::asio::error::eof`),
or enough bytes for `m_receiver` to hold a frame that is either invalid
(`isValidFrame()` false) or valid with the given opcode and (unmasked)
payload. -/
inductive ReadResult where
  | rerr (eof : Bool)
  | rinvalid
  | rvalid (op : Opcode) (msg : String)
deriving DecidableEq, Repr

/-- Whole observable system state. -/
structure Sys where
  table : ConnectionTable := {}
  /-- ids of connections with an outstanding `async_read` registered. -/
  pendingReads : List Nat := []
  /-- ids of connections with an outstanding `async_write` registered. -/
  pendingWrites : List Nat := []
  /-- trace of application callback invocations `(event, id, payload)`. -/
  events : List (Event × Nat × String) := []
  logs : List LogMsg := []
  /-- frames fully written to the transport, in completion order. -/
  wire : List (Nat × ServerFrame) := []
  m_isStopped : Bool := false
  /-- whether the acceptor is still open (closed by `stop`). -/
  acceptorOpen : Bool := true
  /-- whether `m_workerThread->join()` has already been executed. -/
  joined : Bool := false
  /-- set when `join` is invoked on an already-joined thread. -/
  joinError : Bool := false
  /-- set when a completion handler fires for a destroyed connection. -/
  ub : Bool := false
deriving DecidableEq, Repr

/-- Keys (connection ids) currently in the table. -/
def tblIds (s : Sys) : List Nat := s.table.m_connections.map Prod.fst

/-- `ConnectionTable::find`. -/
def ConnectionTable.find (t : ConnectionTable) (id : Nat) : Option Connection :=
  (t.m_connections.find? (fun p => p.1 == id)).map Prod.snd

/-- Store an updated connection object back under its key (in C++ the handler
mutates the object in place; here we rewrite the table entry). -/
def tblUpdate (t : ConnectionTable) (c : Connection) : ConnectionTable :=
  { t with m_connections :=
      t.m_connections.map (fun p => if p.1 = c.m_id then (p.1, c) else p) }

/-- `ConnectionTable::erase`. -/
def ConnectionTable.erase (t : ConnectionTable) (id : Nat) : ConnectionTable :=
  { t with m_connections := t.m_connections.filter (fun p => p.1 != id) }

/-- `ConnectionTable::add`: allocate `++m_lastConnId` and store a fresh
connection.  The `Connection` constructor immediately calls
`beginRecvFrame()`, so the new connection starts with `m_isReading = true`;
the corresponding pending read is registered by the caller (`stepAccept`). -/
def ConnectionTable.add (t : ConnectionTable) : ConnectionTable × Nat :=
  let id := t.m_lastConnId + 1
  ({ m_lastConnId := id,
     m_connections := (id, { m_id := id, m_isReading := true }) :: t.m_connections },
   id)

/-- `ConnectionTable::closeAll`: `close()` every live connection. -/
def ConnectionTable.closeAll (t : ConnectionTable) : ConnectionTable :=
  { t with m_connections := t.m_connections.map (fun p =>
      (p.1, { p.2 with m_isClosed := true })) }

/-- `Connection::close`: early-return if already closed, otherwise set
`m_isClosed` and cancel/shutdown/close the socket (transport-level effects;
outstanding operations stay pending and will complete with an error). -/
def Connection.close (c : Connection) : Connection :=
  if c.m_isClosed then c else { c with m_isClosed := true }

/-- `Connection::sendNext`: set `m_isSending`, start `async_write` of the
queue's front frame.  Returns the state with the updated connection stored,
and the updated connection itself. -/
def sendNext (s : Sys) (c : Connection) : Sys × Connection :=
  let c := { c with m_isSending := true }
  ({ s with table := tblUpdate s.table c,
            pendingWrites := s.pendingWrites ++ [c.m_id] }, c)

/-- `Connection::sendFrame`: append to the FIFO queue; start a send only when
the queue just became of size one. -/
def sendFrame (s : Sys) (c : Connection) (op : Opcode) (data : String) :
    Sys × Connection :=
  let c := { c with m_sendQueue := c.m_sendQueue ++ [⟨op, data⟩] }
  let s := { s with table := tblUpdate s.table c }
  if c.m_sendQueue.length = 1 then sendNext s c else (s, c)

/-- `Connection::beginRecvFrame`: set `m_isReading`, register `async_read`. -/
def beginRecvFrame (s : Sys) (c : Connection) : Sys :=
  let c := { c with m_isReading := true }
  { s with table := tblUpdate s.table c,
           pendingReads := s.pendingReads ++ [c.m_id] }

/-- `ServerLogic::drop`: if not yet closed, close and deliver `Disconnect`;
then erase from the table iff neither a read nor a send is outstanding. -/
def ServerLogic.drop (s : Sys) (c : Connection) : Sys :=
  let sc : Sys × Connection :=
    if !c.m_isClosed then
      let c := c.close
      ({ s with table := tblUpdate s.table c,
                events := s.events ++ [(Event.Disconnect, c.m_id, "")] }, c)
    else (s, c)
  let s := sc.1
  let c := sc.2
  if !c.m_isReading && !c.m_isSending then
    { s with table := s.table.erase c.m_id }
  else s

/-- `ServerLogic::processFrame`: deliver `Message` for Text/Binary, log a
warning for any other opcode. -/
def ServerLogic.processFrame (s : Sys) (id : Nat) (op : Opcode) (msg : String) :
    Sys :=
  if op = Opcode.Text ∨ op = Opcode.Binary then
    { s with events := s.events ++ [(Event.Message, id, msg)] }
  else
    { s with logs := s.logs ++ [LogMsg.unknownOpcode id op] }

/-- `Connection::onSendComplete`: clear `m_isSending`; on error log and drop;
otherwise the front frame has been fully written (recorded on `wire`); if not
closed pop it and start the next send if any, else drop. -/
def onSendComplete (s : Sys) (c : Connection) (err : Bool) : Sys :=
  let c := { c with m_isSending := false }
  let s := { s with table := tblUpdate s.table c }
  if err then
    ServerLogic.drop { s with logs := s.logs ++ [LogMsg.sendError c.m_id] } c
  else
    let s := { s with wire := s.wire ++
        ((c.m_sendQueue.head?.map (fun f => (c.m_id, f))).toList) }
    if !c.m_isClosed then
      let c := { c with m_sendQueue := c.m_sendQueue.tail }
      let s := { s with table := tblUpdate s.table c }
      if !c.m_sendQueue.isEmpty then (sendNext s c).1 else s
    else
      ServerLogic.drop s c

/-- `Connection::onRecvComplete`: clear `m_isReading`; on error log (unless
eof) and drop; otherwise, if not closed: a valid Close frame is answered with
our own Close frame through the send path and then drop; a valid non-Close
frame is delivered via `processFrame` and a new read is started (no drop); an
invalid frame is logged and dropped.  If already closed, drop. -/
def onRecvComplete (s : Sys) (c : Connection) (r : ReadResult) : Sys :=
  let c := { c with m_isReading := false }
  let s := { s with table := tblUpdate s.table c }
  match r with
  | ReadResult.rerr eof =>
      let s := if eof then s else { s with logs := s.logs ++ [LogMsg.recvError c.m_id] }
      ServerLogic.drop s c
  | ReadResult.rinvalid =>
      if !c.m_isClosed then
        ServerLogic.drop { s with logs := s.logs ++ [LogMsg.invalidFrame c.m_id] } c
      else
        ServerLogic.drop s c
  | ReadResult.rvalid op msg =>
      if !c.m_isClosed then
        if op = Opcode.Close then
          let sc := sendFrame s c Opcode.Close ""
          ServerLogic.drop sc.1 sc.2
        else
          let s := ServerLogic.processFrame s c.m_id op msg
          beginRecvFrame s c
      else
        ServerLogic.drop s c

/-- Atomic units of work of the single-threaded execution context. -/
inductive Act where
  /-- an `async_accept` completes; `handshakeOk` is the outcome of
  `performHandshake` on that socket. -/
  | accept (handshakeOk : Bool)
  /-- the outstanding `async_read` of connection `id` completes. -/
  | recvComplete (id : Nat) (r : ReadResult)
  /-- the outstanding `async_write` of connection `id` completes. -/
  | sendComplete (id : Nat) (err : Bool)
  /-- the work item posted by `ServerImpl::send` runs. -/
  | apiSend (id : Nat) (msg : String) (isBinary : Bool)
  /-- the work item posted by `ServerImpl::drop` runs. -/
  | apiDrop (id : Nat)
  /-- `ServerImpl::stop` runs. -/
  | stop
deriving DecidableEq, Repr

/-- Execute one action.  Completion actions are enabled only when the
corresponding operation is actually outstanding (otherwise no-op); a
completion for a connection no longer in the table sets `ub`. -/
def step (s : Sys) (a : Act) : Sys :=
  match a with
  | Act.accept ok =>
      if s.m_isStopped || !s.acceptorOpen then s
      else if ok then
        let ti := s.table.add
        { s with table := ti.1,
                 pendingReads := s.pendingReads ++ [ti.2],
                 events := s.events ++ [(Event.NewConnection, ti.2, "")] }
      else
        { s with logs := s.logs ++ [LogMsg.handshakeFailed] }
  | Act.recvComplete id r =>
      if id ∈ s.pendingReads then
        let s := { s with pendingReads := s.pendingReads.erase id }
        match s.table.find id with
        | some c => onRecvComplete s c r
        | none => { s with ub := true }
      else s
  | Act.sendComplete id err =>
      if id ∈ s.pendingWrites then
        let s := { s with pendingWrites := s.pendingWrites.erase id }
        match s.table.find id with
        | some c => onSendComplete s c err
        | none => { s with ub := true }
      else s
  | Act.apiSend id msg isBinary =>
      match s.table.find id with
      | some c =>
          (sendFrame s c (if isBinary then Opcode.Binary else Opcode.Text) msg).1
      | none => s
  | Act.apiDrop id =>
      match s.table.find id with
      | some c => ServerLogic.drop s c
      | none => s
  | Act.stop =>
      let s := { s with m_isStopped := true, acceptorOpen := false }
      let s := { s with table := s.table.closeAll }
      if s.joined then { s with joinError := true }
      else { s with joined := true }

/-- The initial state of a freshly constructed `ServerImpl`. -/
def init : Sys := {}

/-- Run the event loop from the initial state. -/
def run (acts : List Act) : Sys := acts.foldl step init

/-- `ServerImpl::~ServerImpl`: `if (!m_isStopped) stop();`. -/
def dtorStep (s : Sys) : Sys :=
  if s.m_isStopped then s else step s Act.stop

/-- Number of occurrences of event `ev` for connection `id` in a trace. -/
def eventCount (ev : Event) (id : Nat) (es : List (Event × Nat × String)) : Nat :=
  (es.filter (fun e => e.1 == ev && e.2.1 == id)).length

/-- The connection ids carried by `NewConnection` events, in emission order:
the allocation history of the table. -/
def newConnIds (es : List (Event × Nat × String)) : List Nat :=
  es.filterMap (fun e => if e.1 = Event.NewConnection then some e.2.1 else none)

example : run [] = init := rfl

example :
    tblIds (run [Act.accept true]) = [1] := by decide

example :
    (run [Act.accept true]).events = [(Event.NewConnection, 1, "")] := by decide

example :
    (run [Act.accept false]).events = [] := by decide

/-! ## Basic lemmas about the table operations -/

/-- Keys of a connection table. -/
def keys (t : ConnectionTable) : List Nat := t.m_connections.map Prod.fst

theorem tblIds_eq (s : Sys) : tblIds s = keys s.table := rfl

theorem keys_tblUpdate (t : ConnectionTable) (c : Connection) :
    keys (tblUpdate t c) = keys t := by
  simp only [keys, tblUpdate, List.map_map]
  apply List.map_congr_left
  intro p _
  by_cases h : p.1 = c.m_id <;> simp [h]

theorem mem_keys_erase {t : ConnectionTable} {id x : Nat} :
    x ∈ keys (t.erase id) ↔ x ∈ keys t ∧ x ≠ id := by
  simp only [keys, ConnectionTable.erase, List.mem_map, List.mem_filter]
  constructor
  · rintro ⟨p, ⟨hp, hne⟩, rfl⟩
    exact ⟨⟨p, hp, rfl⟩, by simpa using hne⟩
  · rintro ⟨⟨p, hp, rfl⟩, hne⟩
    exact ⟨p, ⟨hp, by simpa using hne⟩, rfl⟩

theorem keys_closeAll (t : ConnectionTable) : keys t.closeAll = keys t := by
  simp [keys, ConnectionTable.closeAll, List.map_map, Function.comp]

theorem lastConnId_tblUpdate (t : ConnectionTable) (c : Connection) :
    (tblUpdate t c).m_lastConnId = t.m_lastConnId := rfl

theorem lastConnId_erase (t : ConnectionTable) (id : Nat) :
    (t.erase id).m_lastConnId = t.m_lastConnId := rfl

theorem lastConnId_closeAll (t : ConnectionTable) :
    t.closeAll.m_lastConnId = t.m_lastConnId := rfl

theorem nodup_keys_erase {t : ConnectionTable} {id : Nat}
    (h : (keys t).Nodup) : (keys (t.erase id)).Nodup := by
  have hsub : List.Sublist (t.m_connections.filter (fun p => p.1 != id))
      t.m_connections := List.filter_sublist _
  exact h.sublist (hsub.map Prod.fst)

/-- Membership in an updated table. -/
theorem mem_tblUpdate_iff {t : ConnectionTable} {c : Connection}
    {p : Nat × Connection} :
    p ∈ (tblUpdate t c).m_connections ↔
      (p ∈ t.m_connections ∧ p.1 ≠ c.m_id) ∨
      (p = (c.m_id, c) ∧ c.m_id ∈ keys t) := by
  simp only [tblUpdate, List.mem_map]
  constructor
  · rintro ⟨q, hq, rfl⟩
    by_cases h : q.1 = c.m_id
    · right
      refine ⟨by simp [h], ?_⟩
      exact h ▸ List.mem_map.mpr ⟨q, hq, rfl⟩
    · left
      simp only [if_neg h]
      exact ⟨hq, h⟩
  · rintro (⟨hp, hne⟩ | ⟨rfl, hk⟩)
    · exact ⟨p, hp, by simp [hne]⟩
    · obtain ⟨q, hq, hq1⟩ := List.mem_map.mp hk
      exact ⟨q, hq, by simp [hq1]⟩

theorem mem_tblUpdate_self {t : ConnectionTable} {c₀ c : Connection}
    (h : (c.m_id, c₀) ∈ t.m_connections) :
    (c.m_id, c) ∈ (tblUpdate t c).m_connections :=
  mem_tblUpdate_iff.mpr (Or.inr ⟨rfl, List.mem_map.mpr ⟨_, h, rfl⟩⟩)

theorem mem_erase_iff {t : ConnectionTable} {id : Nat} {p : Nat × Connection} :
    p ∈ (t.erase id).m_connections ↔ p ∈ t.m_connections ∧ p.1 ≠ id := by
  simp only [ConnectionTable.erase, List.mem_filter, bne_iff_ne, ne_eq]

theorem mem_closeAll_iff {t : ConnectionTable} {p : Nat × Connection} :
    p ∈ t.closeAll.m_connections ↔
      ∃ q ∈ t.m_connections, p = (q.1, { q.2 with m_isClosed := true }) := by
  simp only [ConnectionTable.closeAll, List.mem_map]
  constructor
  · rintro ⟨q, hq, rfl⟩; exact ⟨q, hq, rfl⟩
  · rintro ⟨q, hq, rfl⟩; exact ⟨q, hq, rfl⟩

/-- With nodup keys, two entries of an association list under the same key
are the same entry. -/
theorem nodup_key_eq_list {l : List (Nat × Connection)}
    (hn : (l.map Prod.fst).Nodup) {k : Nat} {a b : Connection}
    (ha : (k, a) ∈ l) (hb : (k, b) ∈ l) : a = b := by
  induction l with
  | nil => cases ha
  | cons q l ih =>
      simp only [List.map_cons, List.nodup_cons] at hn
      rcases List.mem_cons.mp ha with h1 | h1 <;>
        rcases List.mem_cons.mp hb with h2 | h2
      · rw [← h1] at h2; exact (congrArg Prod.snd h2).symm
      · rw [← h1] at hn
        exact absurd (List.mem_map.mpr ⟨_, h2, rfl⟩) hn.1
      · rw [← h2] at hn
        exact absurd (List.mem_map.mpr ⟨_, h1, rfl⟩) hn.1
      · exact ih hn.2 h1 h2

theorem nodup_key_eq {t : ConnectionTable} (hn : (keys t).Nodup)
    {k : Nat} {a b : Connection}
    (ha : (k, a) ∈ t.m_connections) (hb : (k, b) ∈ t.m_connections) : a = b :=
  nodup_key_eq_list hn ha hb

theorem find_eq_none_iff {t : ConnectionTable} {id : Nat} :
    t.find id = none ↔ id ∉ keys t := by
  simp only [ConnectionTable.find, Option.map_eq_none', List.find?_eq_none, keys,
    List.mem_map]
  constructor
  · rintro h ⟨p, hp, rfl⟩
    exact h p hp (by simp)
  · rintro h p hp hpid
    exact h ⟨p, hp, by simpa using hpid⟩

theorem find_some_mem {t : ConnectionTable} {id : Nat} {c : Connection}
    (h : t.find id = some c) : (id, c) ∈ t.m_connections := by
  simp only [ConnectionTable.find, Option.map_eq_some'] at h
  obtain ⟨p, hp, rfl⟩ := h
  have hmem := List.mem_of_find?_eq_some hp
  have hkey : p.1 = id := by simpa using List.find?_some hp
  rw [← hkey]
  exact hmem

theorem find_eq_some_of_mem {t : ConnectionTable} (hn : (keys t).Nodup)
    {id : Nat} {c : Connection} (h : (id, c) ∈ t.m_connections) :
    t.find id = some c := by
  rcases hfind : t.find id with _ | c'
  · exact absurd (List.mem_map.mpr ⟨_, h, rfl⟩) (find_eq_none_iff.mp hfind)
  · rw [nodup_key_eq hn (find_some_mem hfind) h]

/-! ## Lemmas about the event trace -/

theorem eventCount_append (ev : Event) (id : Nat)
    (es es' : List (Event × Nat × String)) :
    eventCount ev id (es ++ es') = eventCount ev id es + eventCount ev id es' := by
  simp [eventCount, List.filter_append]

theorem eventCount_single (ev ev' : Event) (id id' : Nat) (p : String) :
    eventCount ev id [(ev', id', p)] = if ev' = ev ∧ id' = id then 1 else 0 := by
  by_cases h1 : ev' = ev <;> by_cases h2 : id' = id <;>
    simp [eventCount, h1, h2]

theorem newConnIds_append (es es' : List (Event × Nat × String)) :
    newConnIds (es ++ es') = newConnIds es ++ newConnIds es' := by
  simp [newConnIds, List.filterMap_append]

theorem newConnIds_single_other {ev : Event} (h : ev ≠ Event.NewConnection)
    (id : Nat) (p : String) : newConnIds [(ev, id, p)] = [] := by
  simp [newConnIds, h]

theorem newConnIds_single_nc (id : Nat) (p : String) :
    newConnIds [(Event.NewConnection, id, p)] = [id] := by
  simp [newConnIds]

theorem mem_newConnIds_of_eventCount {id : Nat} {es : List (Event × Nat × String)}
    (h : eventCount Event.NewConnection id es ≠ 0) : id ∈ newConnIds es := by
  induction es with
  | nil => simp [eventCount] at h
  | cons e es ih =>
      rcases e with ⟨ev, i, p⟩
      by_cases h1 : ev = Event.NewConnection
      · subst h1
        by_cases h2 : i = id
        · subst h2; simp [newConnIds]
        · simp only [newConnIds, List.filterMap_cons, if_pos rfl]
          simp only [eventCount, List.filter_cons] at h
          simp only [show ((Event.NewConnection == Event.NewConnection) &&
            (i == id)) = false by simp [h2]] at h
          exact List.mem_cons.mpr (Or.inr (ih h))
      · simp only [newConnIds, List.filterMap_cons, if_neg h1]
        simp only [eventCount, List.filter_cons] at h
        simp only [show ((ev == Event.NewConnection) && (i == id)) = false by
          simp [h1]] at h
        exact ih h

/-! ## The reachability invariant

`SysInv` collects everything the claims need about reachable states: keys are
consistent and unique, the lifecycle flags exactly mirror the outstanding
asynchronous operations, outstanding operations always refer to live table
entries (no use-after-free), ids are bounded by the allocation counter,
`Disconnect` fires at most once and only before a connection is closed,
every registered connection produced exactly one `NewConnection`, and the
allocation history is strictly increasing. -/

structure SysInv (s : Sys) : Prop where
  idsEq : ∀ p ∈ s.table.m_connections, p.2.m_id = p.1
  nodup : (keys s.table).Nodup
  readCount : ∀ p ∈ s.table.m_connections,
      s.pendingReads.count p.1 = (if p.2.m_isReading then 1 else 0)
  sendCount : ∀ p ∈ s.table.m_connections,
      s.pendingWrites.count p.1 = (if p.2.m_isSending then 1 else 0)
  readsInTbl : ∀ id ∈ s.pendingReads, id ∈ keys s.table
  writesInTbl : ∀ id ∈ s.pendingWrites, id ∈ keys s.table
  noUb : s.ub = false
  idLe : ∀ id ∈ keys s.table, id ≤ s.table.m_lastConnId
  evLe : ∀ e ∈ s.events, e.2.1 ≤ s.table.m_lastConnId
  discLe : ∀ id, eventCount Event.Disconnect id s.events ≤ 1
  openNoDisc : ∀ p ∈ s.table.m_connections, p.2.m_isClosed = false →
      eventCount Event.Disconnect p.1 s.events = 0
  tblNC : ∀ p ∈ s.table.m_connections,
      eventCount Event.NewConnection p.1 s.events = 1
  ncSorted : (newConnIds s.events).Pairwise (· < ·)
  ncLe : ∀ id ∈ newConnIds s.events, id ≤ s.table.m_lastConnId
  queueSend : ∀ p ∈ s.table.m_connections,
      p.2.m_sendQueue = [] → p.2.m_isSending = false

/-- `SysInv` only looks at the table, the pending-operation sets, the event
trace and the `ub` flag. -/
theorem sysInv_of_eq {s s' : Sys} (h : SysInv s)
    (ht : s'.table = s.table) (hr : s'.pendingReads = s.pendingReads)
    (hw : s'.pendingWrites = s.pendingWrites) (he : s'.events = s.events)
    (hu : s'.ub = s.ub) : SysInv s' := by
  obtain ⟨a1, a2, a3, a4, a5, a6, a7, a8, a9, a10, a11, a12, a13, a14, a15⟩ := h
  refine ⟨?_, ?_, ?_, ?_, ?_, ?_, ?_, ?_, ?_, ?_, ?_, ?_, ?_, ?_, ?_⟩ <;>
    simp only [ht, hr, hw, he, hu] <;> assumption

theorem sysInv_init : SysInv init := by
  refine ⟨?_, ?_, ?_, ?_, ?_, ?_, ?_, ?_, ?_, ?_, ?_, ?_, ?_, ?_, ?_⟩ <;>
    simp [init, keys, eventCount, newConnIds]

/-- If no event of the trace mentions `id`, every count for `id` is zero. -/
theorem eventCount_eq_zero {ev : Event} {id : Nat}
    {es : List (Event × Nat × String)} (h : ∀ e ∈ es, e.2.1 ≠ id) :
    eventCount ev id es = 0 := by
  simp only [eventCount, List.length_eq_zero, List.filter_eq_nil_iff]
  intro e he
  simp [h e he]

/-! ## Preservation of the invariant by the individual operations -/

theorem close_of_open {c : Connection} (h : c.m_isClosed = false) :
    c.close = { c with m_isClosed := true } := by
  simp [Connection.close, h]

theorem close_of_closed {c : Connection} (h : c.m_isClosed = true) :
    c.close = c := by
  simp [Connection.close, h]

theorem count_read_zero {s : Sys} (h : SysInv s) {c : Connection}
    (hc : (c.m_id, c) ∈ s.table.m_connections) (hf : c.m_isReading = false) :
    s.pendingReads.count c.m_id = 0 := by
  have := h.readCount _ hc
  rwa [hf, if_neg (by simp)] at this

theorem count_send_zero {s : Sys} (h : SysInv s) {c : Connection}
    (hc : (c.m_id, c) ∈ s.table.m_connections) (hf : c.m_isSending = false) :
    s.pendingWrites.count c.m_id = 0 := by
  have := h.sendCount _ hc
  rwa [hf, if_neg (by simp)] at this

theorem reading_of_pending {s : Sys} (h : SysInv s) {c : Connection}
    (hc : (c.m_id, c) ∈ s.table.m_connections) (hm : c.m_id ∈ s.pendingReads) :
    c.m_isReading = true := by
  by_contra hne
  have h0 := count_read_zero h hc (Bool.not_eq_true _ ▸ hne)
  exact List.count_pos_iff.mpr hm |>.ne' (by omega)

theorem sending_of_pending {s : Sys} (h : SysInv s) {c : Connection}
    (hc : (c.m_id, c) ∈ s.table.m_connections) (hm : c.m_id ∈ s.pendingWrites) :
    c.m_isSending = true := by
  by_contra hne
  have h0 := count_send_zero h hc (Bool.not_eq_true _ ▸ hne)
  exact List.count_pos_iff.mpr hm |>.ne' (by omega)

theorem inv_erase {s : Sys} (h : SysInv s) {c : Connection}
    (hc : (c.m_id, c) ∈ s.table.m_connections)
    (hr : c.m_isReading = false) (hsn : c.m_isSending = false) :
    SysInv { s with table := s.table.erase c.m_id } := by
  have hnr : c.m_id ∉ s.pendingReads :=
    List.count_eq_zero.mp (count_read_zero h hc hr)
  have hnw : c.m_id ∉ s.pendingWrites :=
    List.count_eq_zero.mp (count_send_zero h hc hsn)
  refine ⟨?_, ?_, ?_, ?_, ?_, ?_, ?_, ?_, ?_, ?_, ?_, ?_, ?_, ?_, ?_⟩
  · intro p hp; exact h.idsEq p (mem_erase_iff.mp hp).1
  · exact nodup_keys_erase h.nodup
  · intro p hp; exact h.readCount p (mem_erase_iff.mp hp).1
  · intro p hp; exact h.sendCount p (mem_erase_iff.mp hp).1
  · intro id hid
    exact mem_keys_erase.mpr
      ⟨h.readsInTbl id hid, fun e => hnr (e ▸ hid)⟩
  · intro id hid
    exact mem_keys_erase.mpr
      ⟨h.writesInTbl id hid, fun e => hnw (e ▸ hid)⟩
  · exact h.noUb
  · intro id hid; exact h.idLe id (mem_keys_erase.mp hid).1
  · exact h.evLe
  · exact h.discLe
  · intro p hp; exact h.openNoDisc p (mem_erase_iff.mp hp).1
  · intro p hp; exact h.tblNC p (mem_erase_iff.mp hp).1
  · exact h.ncSorted
  · exact h.ncLe
  · intro p hp; exact h.queueSend p (mem_erase_iff.mp hp).1

theorem inv_update {s : Sys} (h : SysInv s) {c₀ c : Connection}
    (hc : (c.m_id, c₀) ∈ s.table.m_connections)
    (hrc : s.pendingReads.count c.m_id = (if c.m_isReading then 1 else 0))
    (hsc : s.pendingWrites.count c.m_id = (if c.m_isSending then 1 else 0))
    (hop : c.m_isClosed = false → eventCount Event.Disconnect c.m_id s.events = 0)
    (hqs : c.m_sendQueue = [] → c.m_isSending = false) :
    SysInv { s with table := tblUpdate s.table c } := by
  refine ⟨?_, ?_, ?_, ?_, ?_, ?_, ?_, ?_, ?_, ?_, ?_, ?_, ?_, ?_, ?_⟩
  · intro p hp
    rcases mem_tblUpdate_iff.mp hp with ⟨hp1, _⟩ | ⟨rfl, _⟩
    · exact h.idsEq p hp1
    · rfl
  · rw [show ({ s with table := tblUpdate s.table c } : Sys).table =
      tblUpdate s.table c from rfl, keys_tblUpdate]
    exact h.nodup
  · intro p hp
    rcases mem_tblUpdate_iff.mp hp with ⟨hp1, _⟩ | ⟨rfl, _⟩
    · exact h.readCount p hp1
    · exact hrc
  · intro p hp
    rcases mem_tblUpdate_iff.mp hp with ⟨hp1, _⟩ | ⟨rfl, _⟩
    · exact h.sendCount p hp1
    · exact hsc
  · intro id hid
    rw [show ({ s with table := tblUpdate s.table c } : Sys).table =
      tblUpdate s.table c from rfl, keys_tblUpdate]
    exact h.readsInTbl id hid
  · intro id hid
    rw [show ({ s with table := tblUpdate s.table c } : Sys).table =
      tblUpdate s.table c from rfl, keys_tblUpdate]
    exact h.writesInTbl id hid
  · exact h.noUb
  · intro id hid
    rw [show ({ s with table := tblUpdate s.table c } : Sys).table =
      tblUpdate s.table c from rfl, keys_tblUpdate] at hid
    exact h.idLe id hid
  · exact h.evLe
  · exact h.discLe
  · intro p hp
    rcases mem_tblUpdate_iff.mp hp with ⟨hp1, _⟩ | ⟨rfl, _⟩
    · exact h.openNoDisc p hp1
    · exact hop
  · intro p hp
    rcases mem_tblUpdate_iff.mp hp with ⟨hp1, _⟩ | ⟨rfl, _⟩
    · exact h.tblNC p hp1
    · exact h.tblNC (c.m_id, c₀) hc
  · exact h.ncSorted
  · exact h.ncLe
  · intro p hp
    rcases mem_tblUpdate_iff.mp hp with ⟨hp1, _⟩ | ⟨rfl, _⟩
    · exact h.queueSend p hp1
    · exact hqs

/-- Branch equation for `ServerLogic.drop` on an already-closed connection. -/
theorem drop_eq_of_closed {s : Sys} {c : Connection} (hcl : c.m_isClosed = true) :
    ServerLogic.drop s c =
      if !c.m_isReading && !c.m_isSending then
        { s with table := s.table.erase c.m_id }
      else s := by
  simp [ServerLogic.drop, hcl]

/-- Branch equation for `ServerLogic.drop` on an open connection. -/
theorem drop_eq_of_open {s : Sys} {c : Connection} (hcl : c.m_isClosed = false) :
    ServerLogic.drop s c =
      if !c.m_isReading && !c.m_isSending then
        { s with
            table := (tblUpdate s.table { c with m_isClosed := true }).erase c.m_id,
            events := s.events ++ [(Event.Disconnect, c.m_id, "")] }
      else
        { s with
            table := tblUpdate s.table { c with m_isClosed := true },
            events := s.events ++ [(Event.Disconnect, c.m_id, "")] } := by
  simp only [ServerLogic.drop, hcl, Bool.not_false, if_true, Connection.close,
    Bool.false_eq_true, if_false]

/-- Closing an open connection and emitting its `Disconnect` preserves the
invariant (the conditional-erase part of `drop` is handled separately). -/
theorem inv_close_emit {s : Sys} (h : SysInv s) {c : Connection}
    (hc : (c.m_id, c) ∈ s.table.m_connections) (hcl : c.m_isClosed = false) :
    SysInv { s with table := tblUpdate s.table { c with m_isClosed := true },
                    events := s.events ++ [(Event.Disconnect, c.m_id, "")] } := by
  have hck : c.m_id ∈ keys s.table := List.mem_map.mpr ⟨_, hc, rfl⟩
  have hd0 : eventCount Event.Disconnect c.m_id s.events = 0 :=
    h.openNoDisc _ hc hcl
  have hkeys : keys (tblUpdate s.table { c with m_isClosed := true }) =
      keys s.table := keys_tblUpdate _ _
  refine ⟨?_, ?_, ?_, ?_, ?_, ?_, ?_, ?_, ?_, ?_, ?_, ?_, ?_, ?_, ?_⟩
  · intro p hp
    rcases mem_tblUpdate_iff.mp hp with ⟨hp1, _⟩ | ⟨rfl, _⟩
    · exact h.idsEq p hp1
    · rfl
  · rw [show ({ s with
        table := tblUpdate s.table { c with m_isClosed := true },
        events := s.events ++ [(Event.Disconnect, c.m_id, "")] } : Sys).table =
      tblUpdate s.table { c with m_isClosed := true } from rfl, hkeys]
    exact h.nodup
  · intro p hp
    rcases mem_tblUpdate_iff.mp hp with ⟨hp1, _⟩ | ⟨rfl, _⟩
    · exact h.readCount p hp1
    · exact h.readCount (c.m_id, c) hc
  · intro p hp
    rcases mem_tblUpdate_iff.mp hp with ⟨hp1, _⟩ | ⟨rfl, _⟩
    · exact h.sendCount p hp1
    · exact h.sendCount (c.m_id, c) hc
  · intro id hid
    rw [show ({ s with
        table := tblUpdate s.table { c with m_isClosed := true },
        events := s.events ++ [(Event.Disconnect, c.m_id, "")] } : Sys).table =
      tblUpdate s.table { c with m_isClosed := true } from rfl, hkeys]
    exact h.readsInTbl id hid
  · intro id hid
    rw [show ({ s with
        table := tblUpdate s.table { c with m_isClosed := true },
        events := s.events ++ [(Event.Disconnect, c.m_id, "")] } : Sys).table =
      tblUpdate s.table { c with m_isClosed := true } from rfl, hkeys]
    exact h.writesInTbl id hid
  · exact h.noUb
  · intro id hid
    rw [show ({ s with
        table := tblUpdate s.table { c with m_isClosed := true },
        events := s.events ++ [(Event.Disconnect, c.m_id, "")] } : Sys).table =
      tblUpdate s.table { c with m_isClosed := true } from rfl, hkeys] at hid
    exact h.idLe id hid
  · intro e he
    rcases List.mem_append.mp he with h1 | h1
    · exact h.evLe e h1
    · rw [List.mem_singleton.mp h1]
      exact h.idLe _ hck
  · intro id
    rw [eventCount_append, eventCount_single]
    by_cases hid : c.m_id = id
    · subst hid
      rw [hd0]
      simp
    · rw [if_neg (by simp [hid])]
      have := h.discLe id
      omega
  · intro p hp
    rcases mem_tblUpdate_iff.mp hp with ⟨hp1, hpne⟩ | ⟨rfl, _⟩
    · intro hopen
      rw [eventCount_append, eventCount_single,
        if_neg (by rintro ⟨-, e⟩; exact hpne e.symm),
        h.openNoDisc p hp1 hopen]
    · intro hopen
      simp at hopen
  · intro p hp
    have hnc : eventCount Event.NewConnection p.1
        [(Event.Disconnect, c.m_id, "")] = 0 := by
      rw [eventCount_single, if_neg (by simp)]
    rcases mem_tblUpdate_iff.mp hp with ⟨hp1, _⟩ | ⟨rfl, _⟩
    · rw [eventCount_append, hnc, h.tblNC p hp1]
    · rw [eventCount_append]
      rw [show ((c.m_id, ({ c with m_isClosed := true } : Connection)) :
          Nat × Connection).1 = c.m_id from rfl] at hnc ⊢
      rw [hnc, h.tblNC _ hc]
  · rw [show ({ s with
        table := tblUpdate s.table { c with m_isClosed := true },
        events := s.events ++ [(Event.Disconnect, c.m_id, "")] } : Sys).events =
      s.events ++ [(Event.Disconnect, c.m_id, "")] from rfl,
      newConnIds_append, newConnIds_single_other (by simp), List.append_nil]
    exact h.ncSorted
  · intro id hid
    rw [show ({ s with
        table := tblUpdate s.table { c with m_isClosed := true },
        events := s.events ++ [(Event.Disconnect, c.m_id, "")] } : Sys).events =
      s.events ++ [(Event.Disconnect, c.m_id, "")] from rfl,
      newConnIds_append, newConnIds_single_other (by simp), List.append_nil] at hid
    exact h.ncLe id hid
  · intro p hp
    rcases mem_tblUpdate_iff.mp hp with ⟨hp1, _⟩ | ⟨rfl, _⟩
    · exact h.queueSend p hp1
    · exact h.queueSend (c.m_id, c) hc

/-- `ServerLogic::drop` preserves the invariant. -/
theorem inv_drop {s : Sys} (h : SysInv s) {c : Connection}
    (hc : (c.m_id, c) ∈ s.table.m_connections) :
    SysInv (ServerLogic.drop s c) := by
  by_cases hcl : c.m_isClosed = true
  · rw [drop_eq_of_closed hcl]
    by_cases hf : (!c.m_isReading && !c.m_isSending) = true
    · rw [if_pos hf]
      rw [Bool.and_eq_true] at hf
      obtain ⟨h1, h2⟩ := hf
      have h1' : c.m_isReading = false := by simpa using h1
      have h2' : c.m_isSending = false := by simpa using h2
      exact inv_erase h hc h1' h2'
    · rw [if_neg hf]; exact h
  · have hcl' : c.m_isClosed = false := by simpa using hcl
    have hmid := inv_close_emit h hc hcl'
    have hcmem : ((c.m_id, ({ c with m_isClosed := true } : Connection)) :
        Nat × Connection) ∈
        (tblUpdate s.table { c with m_isClosed := true }).m_connections :=
      mem_tblUpdate_self hc
    rw [drop_eq_of_open hcl']
    by_cases hf : (!c.m_isReading && !c.m_isSending) = true
    · rw [if_pos hf]
      rw [Bool.and_eq_true] at hf
      obtain ⟨h1, h2⟩ := hf
      have h1' : c.m_isReading = false := by simpa using h1
      have h2' : c.m_isSending = false := by simpa using h2
      exact inv_erase (c := { c with m_isClosed := true }) hmid hcmem h1' h2'
    · rw [if_neg hf]; exact hmid

theorem mem_keys_tblUpdate {t : ConnectionTable} {c : Connection} {x : Nat} :
    x ∈ keys (tblUpdate t c) ↔ x ∈ keys t := by
  rw [keys_tblUpdate]

theorem nodup_keys_tblUpdate {t : ConnectionTable} {c : Connection}
    (h : (keys t).Nodup) : (keys (tblUpdate t c)).Nodup := by
  rw [keys_tblUpdate]; exact h

theorem count_concat_self (l : List Nat) (a : Nat) :
    (l ++ [a]).count a = l.count a + 1 := by
  simp [List.count_append]

theorem count_concat_ne (l : List Nat) {a b : Nat} (h : a ≠ b) :
    (l ++ [a]).count b = l.count b := by
  simp [List.count_append, List.count_singleton', h]

/-- Replacing a connection's queue (key and flags unchanged, new queue
nonempty) preserves the invariant. -/
theorem inv_queueUpdate {s : Sys} (h : SysInv s) {c : Connection}
    (hc : (c.m_id, c) ∈ s.table.m_connections) {q : List ServerFrame}
    (hq : q ≠ []) :
    SysInv { s with table := tblUpdate s.table { c with m_sendQueue := q } } :=
  inv_update h hc (h.readCount (c.m_id, c) hc) (h.sendCount (c.m_id, c) hc)
    (h.openNoDisc (c.m_id, c) hc) (fun he => absurd he hq)

/-- `sendNext` preserves the invariant when the connection is not already
sending and its queue is nonempty (both always hold at its call sites). -/
theorem inv_sendNext {s : Sys} (h : SysInv s) {c : Connection}
    (hc : (c.m_id, c) ∈ s.table.m_connections)
    (hns : c.m_isSending = false) (hq : c.m_sendQueue ≠ []) :
    SysInv (sendNext s c).1 ∧
      (c.m_id, ({ c with m_isSending := true } : Connection)) ∈
        (sendNext s c).1.table.m_connections := by
  have hck : c.m_id ∈ keys s.table := List.mem_map.mpr ⟨_, hc, rfl⟩
  have hw0 : s.pendingWrites.count c.m_id = 0 := count_send_zero h hc hns
  constructor
  · refine ⟨?_, ?_, ?_, ?_, ?_, ?_, ?_, ?_, ?_, ?_, ?_, ?_, ?_, ?_, ?_⟩
    · intro p hp
      rcases mem_tblUpdate_iff.mp hp with ⟨hp1, _⟩ | ⟨rfl, _⟩
      · exact h.idsEq p hp1
      · rfl
    · exact nodup_keys_tblUpdate h.nodup
    · intro p hp
      rcases mem_tblUpdate_iff.mp hp with ⟨hp1, _⟩ | ⟨rfl, _⟩
      · exact h.readCount p hp1
      · exact h.readCount (c.m_id, c) hc
    · intro p hp
      rcases mem_tblUpdate_iff.mp hp with ⟨hp1, hpne⟩ | ⟨rfl, _⟩
      · dsimp only at hpne ⊢
        show (s.pendingWrites ++ [c.m_id]).count p.1 = _
        rw [count_concat_ne _ (fun e => hpne e.symm)]
        exact h.sendCount p hp1
      · dsimp only
        show (s.pendingWrites ++ [c.m_id]).count c.m_id = _
        rw [count_concat_self, hw0]
        simp
    · intro id hid
      exact mem_keys_tblUpdate.mpr (h.readsInTbl id hid)
    · intro id hid
      rcases List.mem_append.mp hid with h1 | h1
      · exact mem_keys_tblUpdate.mpr (h.writesInTbl id h1)
      · rw [List.mem_singleton.mp h1]
        exact mem_keys_tblUpdate.mpr hck
    · exact h.noUb
    · intro id hid
      exact h.idLe id (mem_keys_tblUpdate.mp hid)
    · exact h.evLe
    · exact h.discLe
    · intro p hp
      rcases mem_tblUpdate_iff.mp hp with ⟨hp1, _⟩ | ⟨rfl, _⟩
      · exact h.openNoDisc p hp1
      · exact h.openNoDisc (c.m_id, c) hc
    · intro p hp
      rcases mem_tblUpdate_iff.mp hp with ⟨hp1, _⟩ | ⟨rfl, _⟩
      · exact h.tblNC p hp1
      · exact h.tblNC (c.m_id, c) hc
    · exact h.ncSorted
    · exact h.ncLe
    · intro p hp
      rcases mem_tblUpdate_iff.mp hp with ⟨hp1, _⟩ | ⟨rfl, _⟩
      · exact h.queueSend p hp1
      · exact fun he => absurd he hq
  · exact mem_tblUpdate_self hc

/-- `sendFrame` preserves the invariant; the returned connection is the
stored one, with key, `m_isClosed` and `m_isReading` unchanged. -/
theorem inv_sendFrame {s : Sys} (h : SysInv s) {c : Connection}
    (hc : (c.m_id, c) ∈ s.table.m_connections) (op : Opcode) (d : String) :
    SysInv (sendFrame s c op d).1 ∧
    (sendFrame s c op d).2.m_id = c.m_id ∧
    ((c.m_id, (sendFrame s c op d).2) ∈
      (sendFrame s c op d).1.table.m_connections) ∧
    (sendFrame s c op d).2.m_isClosed = c.m_isClosed ∧
    (sendFrame s c op d).2.m_isReading = c.m_isReading := by
  have hqne : c.m_sendQueue ++ [(⟨op, d⟩ : ServerFrame)] ≠ [] := by simp
  have h1 : SysInv
      { s with table :=
                 tblUpdate s.table
                   { c with m_sendQueue := c.m_sendQueue ++ [⟨op, d⟩] } } :=
    inv_queueUpdate h hc hqne
  have hc1 : (c.m_id, ({ c with m_sendQueue := c.m_sendQueue ++ [⟨op, d⟩] } :
      Connection)) ∈ (tblUpdate s.table
        { c with m_sendQueue := c.m_sendQueue ++ [⟨op, d⟩] }).m_connections :=
    mem_tblUpdate_self hc
  simp only [sendFrame]
  by_cases hlen : (c.m_sendQueue ++ [(⟨op, d⟩ : ServerFrame)]).length = 1
  · have hq0 : c.m_sendQueue = [] := by
      rcases hcq : c.m_sendQueue with _ | ⟨f, q⟩
      · rfl
      · rw [hcq] at hlen; simp at hlen
    have hns : c.m_isSending = false := h.queueSend (c.m_id, c) hc hq0
    rw [if_pos hlen]
    have hsn := inv_sendNext
      (c := { c with m_sendQueue := c.m_sendQueue ++ [⟨op, d⟩] }) h1 hc1 hns hqne
    exact ⟨hsn.1, rfl, hsn.2, rfl, rfl⟩
  · rw [if_neg hlen]
    exact ⟨h1, rfl, hc1, rfl, rfl⟩

/-- `beginRecvFrame` preserves the invariant (called only with
`m_isReading = false`). -/
theorem inv_beginRecv {s : Sys} (h : SysInv s) {c : Connection}
    (hc : (c.m_id, c) ∈ s.table.m_connections) (hnr : c.m_isReading = false) :
    SysInv (beginRecvFrame s c) := by
  have hck : c.m_id ∈ keys s.table := List.mem_map.mpr ⟨_, hc, rfl⟩
  have hr0 : s.pendingReads.count c.m_id = 0 := count_read_zero h hc hnr
  refine ⟨?_, ?_, ?_, ?_, ?_, ?_, ?_, ?_, ?_, ?_, ?_, ?_, ?_, ?_, ?_⟩
  · intro p hp
    rcases mem_tblUpdate_iff.mp hp with ⟨hp1, _⟩ | ⟨rfl, _⟩
    · exact h.idsEq p hp1
    · rfl
  · exact nodup_keys_tblUpdate h.nodup
  · intro p hp
    rcases mem_tblUpdate_iff.mp hp with ⟨hp1, hpne⟩ | ⟨rfl, _⟩
    · dsimp only at hpne ⊢
      show (s.pendingReads ++ [c.m_id]).count p.1 = _
      rw [count_concat_ne _ (fun e => hpne e.symm)]
      exact h.readCount p hp1
    · dsimp only
      show (s.pendingReads ++ [c.m_id]).count c.m_id = _
      rw [count_concat_self, hr0]
      simp
  · intro p hp
    rcases mem_tblUpdate_iff.mp hp with ⟨hp1, _⟩ | ⟨rfl, _⟩
    · exact h.sendCount p hp1
    · exact h.sendCount (c.m_id, c) hc
  · intro id hid
    rcases List.mem_append.mp hid with h1 | h1
    · exact mem_keys_tblUpdate.mpr (h.readsInTbl id h1)
    · rw [List.mem_singleton.mp h1]
      exact mem_keys_tblUpdate.mpr hck
  · intro id hid
    exact mem_keys_tblUpdate.mpr (h.writesInTbl id hid)
  · exact h.noUb
  · intro id hid
    exact h.idLe id (mem_keys_tblUpdate.mp hid)
  · exact h.evLe
  · exact h.discLe
  · intro p hp
    rcases mem_tblUpdate_iff.mp hp with ⟨hp1, _⟩ | ⟨rfl, _⟩
    · exact h.openNoDisc p hp1
    · exact h.openNoDisc (c.m_id, c) hc
  · intro p hp
    rcases mem_tblUpdate_iff.mp hp with ⟨hp1, _⟩ | ⟨rfl, _⟩
    · exact h.tblNC p hp1
    · exact h.tblNC (c.m_id, c) hc
  · exact h.ncSorted
  · exact h.ncLe
  · intro p hp
    rcases mem_tblUpdate_iff.mp hp with ⟨hp1, _⟩ | ⟨rfl, _⟩
    · exact h.queueSend p hp1
    · exact h.queueSend (c.m_id, c) hc

theorem processFrame_table (s : Sys) (id : Nat) (op : Opcode) (msg : String) :
    (ServerLogic.processFrame s id op msg).table = s.table := by
  unfold ServerLogic.processFrame
  split <;> rfl

theorem processFrame_pendingReads (s : Sys) (id : Nat) (op : Opcode)
    (msg : String) :
    (ServerLogic.processFrame s id op msg).pendingReads = s.pendingReads := by
  unfold ServerLogic.processFrame
  split <;> rfl

theorem processFrame_pendingWrites (s : Sys) (id : Nat) (op : Opcode)
    (msg : String) :
    (ServerLogic.processFrame s id op msg).pendingWrites = s.pendingWrites := by
  unfold ServerLogic.processFrame
  split <;> rfl

theorem processFrame_events (s : Sys) (id : Nat) (op : Opcode) (msg : String) :
    (ServerLogic.processFrame s id op msg).events = s.events ∨
    (ServerLogic.processFrame s id op msg).events =
      s.events ++ [(Event.Message, id, msg)] := by
  unfold ServerLogic.processFrame
  split
  · exact Or.inr rfl
  · exact Or.inl rfl

/-- `processFrame` preserves the invariant for a registered id. -/
theorem inv_processFrame {s : Sys} (h : SysInv s) {id : Nat}
    (hid : id ∈ keys s.table) (op : Opcode) (msg : String) :
    SysInv (ServerLogic.processFrame s id op msg) := by
  unfold ServerLogic.processFrame
  split
  · refine ⟨h.idsEq, h.nodup, h.readCount, h.sendCount, h.readsInTbl,
      h.writesInTbl, h.noUb, h.idLe, ?_, ?_, ?_, ?_, ?_, ?_, h.queueSend⟩
    · intro e he
      rcases List.mem_append.mp he with h1 | h1
      · exact h.evLe e h1
      · rw [List.mem_singleton.mp h1]
        exact h.idLe id hid
    · intro i
      rw [eventCount_append, eventCount_single, if_neg (by simp)]
      have := h.discLe i
      omega
    · intro p hp hopen
      rw [eventCount_append, eventCount_single, if_neg (by simp)]
      rw [h.openNoDisc p hp hopen]
    · intro p hp
      rw [eventCount_append, eventCount_single, if_neg (by simp)]
      rw [h.tblNC p hp]
    · rw [show ({ s with events := s.events ++ [(Event.Message, id, msg)] } :
        Sys).events = s.events ++ [(Event.Message, id, msg)] from rfl,
        newConnIds_append, newConnIds_single_other (by simp), List.append_nil]
      exact h.ncSorted
    · intro i hi
      rw [show ({ s with events := s.events ++ [(Event.Message, id, msg)] } :
        Sys).events = s.events ++ [(Event.Message, id, msg)] from rfl,
        newConnIds_append, newConnIds_single_other (by simp),
        List.append_nil] at hi
      exact h.ncLe i hi
  · exact sysInv_of_eq h rfl rfl rfl rfl rfl

theorem mem_keys_closeAll {t : ConnectionTable} {x : Nat} :
    x ∈ keys t.closeAll ↔ x ∈ keys t := by
  rw [keys_closeAll]

theorem nodup_keys_closeAll {t : ConnectionTable} (h : (keys t).Nodup) :
    (keys t.closeAll).Nodup := by
  rw [keys_closeAll]; exact h

/-- Consuming the outstanding read of a connection (remove it from the
pending set, clear `m_isReading`, store the connection back) restores the
invariant: this is the entry sequence of `onRecvComplete`. -/
theorem inv_recvEntry {s : Sys} (h : SysInv s) {c : Connection}
    (hc : (c.m_id, c) ∈ s.table.m_connections) (hmem : c.m_id ∈ s.pendingReads) :
    SysInv { s with pendingReads := s.pendingReads.erase c.m_id,
                    table := tblUpdate s.table { c with m_isReading := false } } := by
  have hrd : c.m_isReading = true := reading_of_pending h hc hmem
  have hcount : s.pendingReads.count c.m_id = 1 := by
    have := h.readCount (c.m_id, c) hc
    rwa [hrd, if_pos rfl] at this
  refine ⟨?_, ?_, ?_, ?_, ?_, ?_, ?_, ?_, ?_, ?_, ?_, ?_, ?_, ?_, ?_⟩
  · intro p hp
    rcases mem_tblUpdate_iff.mp hp with ⟨hp1, _⟩ | ⟨rfl, _⟩
    · exact h.idsEq p hp1
    · rfl
  · exact nodup_keys_tblUpdate h.nodup
  · intro p hp
    rcases mem_tblUpdate_iff.mp hp with ⟨hp1, hpne⟩ | ⟨rfl, _⟩
    · dsimp only at hpne ⊢
      show (s.pendingReads.erase c.m_id).count p.1 = _
      rw [List.count_erase, if_neg (by simpa using fun e => hpne e.symm)]
      rw [Nat.sub_zero]
      exact h.readCount p hp1
    · dsimp only
      show (s.pendingReads.erase c.m_id).count c.m_id = _
      rw [List.count_erase, if_pos (by simp), hcount]
      simp
  · intro p hp
    rcases mem_tblUpdate_iff.mp hp with ⟨hp1, _⟩ | ⟨rfl, _⟩
    · exact h.sendCount p hp1
    · exact h.sendCount (c.m_id, c) hc
  · intro id hid
    exact mem_keys_tblUpdate.mpr (h.readsInTbl id (List.mem_of_mem_erase hid))
  · intro id hid
    exact mem_keys_tblUpdate.mpr (h.writesInTbl id hid)
  · exact h.noUb
  · intro id hid
    exact h.idLe id (mem_keys_tblUpdate.mp hid)
  · exact h.evLe
  · exact h.discLe
  · intro p hp
    rcases mem_tblUpdate_iff.mp hp with ⟨hp1, _⟩ | ⟨rfl, _⟩
    · exact h.openNoDisc p hp1
    · exact h.openNoDisc (c.m_id, c) hc
  · intro p hp
    rcases mem_tblUpdate_iff.mp hp with ⟨hp1, _⟩ | ⟨rfl, _⟩
    · exact h.tblNC p hp1
    · exact h.tblNC (c.m_id, c) hc
  · exact h.ncSorted
  · exact h.ncLe
  · intro p hp
    rcases mem_tblUpdate_iff.mp hp with ⟨hp1, _⟩ | ⟨rfl, _⟩
    · exact h.queueSend p hp1
    · exact h.queueSend (c.m_id, c) hc

/-- Entry sequence of `onSendComplete`, symmetric to `inv_recvEntry`. -/
theorem inv_sendEntry {s : Sys} (h : SysInv s) {c : Connection}
    (hc : (c.m_id, c) ∈ s.table.m_connections) (hmem : c.m_id ∈ s.pendingWrites) :
    SysInv { s with pendingWrites := s.pendingWrites.erase c.m_id,
                    table := tblUpdate s.table { c with m_isSending := false } } := by
  have hsd : c.m_isSending = true := sending_of_pending h hc hmem
  have hcount : s.pendingWrites.count c.m_id = 1 := by
    have := h.sendCount (c.m_id, c) hc
    rwa [hsd, if_pos rfl] at this
  refine ⟨?_, ?_, ?_, ?_, ?_, ?_, ?_, ?_, ?_, ?_, ?_, ?_, ?_, ?_, ?_⟩
  · intro p hp
    rcases mem_tblUpdate_iff.mp hp with ⟨hp1, _⟩ | ⟨rfl, _⟩
    · exact h.idsEq p hp1
    · rfl
  · exact nodup_keys_tblUpdate h.nodup
  · intro p hp
    rcases mem_tblUpdate_iff.mp hp with ⟨hp1, _⟩ | ⟨rfl, _⟩
    · exact h.readCount p hp1
    · exact h.readCount (c.m_id, c) hc
  · intro p hp
    rcases mem_tblUpdate_iff.mp hp with ⟨hp1, hpne⟩ | ⟨rfl, _⟩
    · dsimp only at hpne ⊢
      show (s.pendingWrites.erase c.m_id).count p.1 = _
      rw [List.count_erase, if_neg (by simpa using fun e => hpne e.symm)]
      rw [Nat.sub_zero]
      exact h.sendCount p hp1
    · dsimp only
      show (s.pendingWrites.erase c.m_id).count c.m_id = _
      rw [List.count_erase, if_pos (by simp), hcount]
      simp
  · intro id hid
    exact mem_keys_tblUpdate.mpr (h.readsInTbl id hid)
  · intro id hid
    exact mem_keys_tblUpdate.mpr (h.writesInTbl id (List.mem_of_mem_erase hid))
  · exact h.noUb
  · intro id hid
    exact h.idLe id (mem_keys_tblUpdate.mp hid)
  · exact h.evLe
  · exact h.discLe
  · intro p hp
    rcases mem_tblUpdate_iff.mp hp with ⟨hp1, _⟩ | ⟨rfl, _⟩
    · exact h.openNoDisc p hp1
    · exact h.openNoDisc (c.m_id, c) hc
  · intro p hp
    rcases mem_tblUpdate_iff.mp hp with ⟨hp1, _⟩ | ⟨rfl, _⟩
    · exact h.tblNC p hp1
    · exact h.tblNC (c.m_id, c) hc
  · exact h.ncSorted
  · exact h.ncLe
  · intro p hp
    rcases mem_tblUpdate_iff.mp hp with ⟨hp1, _⟩ | ⟨rfl, _⟩
    · exact h.queueSend p hp1
    · exact fun _ => rfl

/-- A successful accept (fresh registration) preserves the invariant. -/
theorem inv_accept_true {s : Sys} (h : SysInv s) :
    SysInv { s with
        table := (ConnectionTable.add s.table).1,
        pendingReads := s.pendingReads ++ [(ConnectionTable.add s.table).2],
        events := s.events ++
          [(Event.NewConnection, (ConnectionTable.add s.table).2, "")] } := by
  have hnotin : s.table.m_lastConnId + 1 ∉ keys s.table := fun hm => by
    have := h.idLe _ hm; omega
  have hnr : s.table.m_lastConnId + 1 ∉ s.pendingReads := fun hm =>
    hnotin (h.readsInTbl _ hm)
  have hnw : s.table.m_lastConnId + 1 ∉ s.pendingWrites := fun hm =>
    hnotin (h.writesInTbl _ hm)
  have hev0 : ∀ ev, eventCount ev (s.table.m_lastConnId + 1) s.events = 0 :=
    fun ev => eventCount_eq_zero (fun e he => by
      have := h.evLe e he; omega)
  simp only [ConnectionTable.add]
  refine ⟨?_, ?_, ?_, ?_, ?_, ?_, ?_, ?_, ?_, ?_, ?_, ?_, ?_, ?_, ?_⟩
  · intro p hp
    rcases List.mem_cons.mp hp with rfl | hp1
    · rfl
    · exact h.idsEq p hp1
  · show (keys _).Nodup
    simp only [keys, List.map_cons, List.nodup_cons]
    exact ⟨fun hm => hnotin hm, h.nodup⟩
  · intro p hp
    rcases List.mem_cons.mp hp with rfl | hp1
    · dsimp only
      show (s.pendingReads ++ [s.table.m_lastConnId + 1]).count
        (s.table.m_lastConnId + 1) = _
      rw [count_concat_self, List.count_eq_zero_of_not_mem hnr]
      simp
    · dsimp only
      show (s.pendingReads ++ [s.table.m_lastConnId + 1]).count p.1 = _
      have hple : p.1 ≤ s.table.m_lastConnId :=
        h.idLe p.1 (List.mem_map.mpr ⟨p, hp1, rfl⟩)
      rw [count_concat_ne _ (by omega)]
      exact h.readCount p hp1
  · intro p hp
    rcases List.mem_cons.mp hp with rfl | hp1
    · dsimp only
      show s.pendingWrites.count (s.table.m_lastConnId + 1) = _
      rw [List.count_eq_zero_of_not_mem hnw]
      simp
    · exact h.sendCount p hp1
  · intro id hid
    rcases List.mem_append.mp hid with h1 | h1
    · show id ∈ keys _
      simp only [keys, List.map_cons]
      exact List.mem_cons.mpr (Or.inr (h.readsInTbl id h1))
    · show id ∈ keys _
      simp only [keys, List.map_cons]
      exact List.mem_cons.mpr (Or.inl (List.mem_singleton.mp h1))
  · intro id hid
    show id ∈ keys _
    simp only [keys, List.map_cons]
    exact List.mem_cons.mpr (Or.inr (h.writesInTbl id hid))
  · exact h.noUb
  · intro id hid
    show id ≤ s.table.m_lastConnId + 1
    simp only [keys, List.map_cons, List.mem_cons] at hid
    rcases hid with rfl | hid
    · omega
    · have := h.idLe id hid; omega
  · intro e he
    show e.2.1 ≤ s.table.m_lastConnId + 1
    rcases List.mem_append.mp he with h1 | h1
    · have := h.evLe e h1; omega
    · rw [List.mem_singleton.mp h1]
  · intro i
    show eventCount Event.Disconnect i
      (s.events ++ [(Event.NewConnection, s.table.m_lastConnId + 1, "")]) ≤ 1
    rw [eventCount_append, eventCount_single, if_neg (by simp)]
    have := h.discLe i
    omega
  · intro p hp
    rcases List.mem_cons.mp hp with rfl | hp1
    · intro _
      dsimp only
      rw [eventCount_append, eventCount_single, if_neg (by simp), hev0]
    · intro hopen
      have hple : p.1 ≤ s.table.m_lastConnId :=
        h.idLe p.1 (List.mem_map.mpr ⟨p, hp1, rfl⟩)
      rw [eventCount_append, eventCount_single, if_neg (by simp),
        h.openNoDisc p hp1 hopen]
  · intro p hp
    rcases List.mem_cons.mp hp with rfl | hp1
    · dsimp only
      rw [eventCount_append, eventCount_single, if_pos ⟨rfl, rfl⟩, hev0]
    · have hple : p.1 ≤ s.table.m_lastConnId :=
        h.idLe p.1 (List.mem_map.mpr ⟨p, hp1, rfl⟩)
      rw [eventCount_append, eventCount_single, if_neg (by rintro ⟨-, e⟩; omega),
        h.tblNC p hp1]
  · show ((newConnIds (s.events ++ [(Event.NewConnection,
      s.table.m_lastConnId + 1, "")]))).Pairwise (· < ·)
    rw [newConnIds_append, newConnIds_single_nc]
    rw [List.pairwise_append]
    refine ⟨h.ncSorted, List.pairwise_singleton _ _, ?_⟩
    intro a ha b hb
    rw [List.mem_singleton.mp hb]
    have := h.ncLe a ha
    omega
  · intro id hid
    show id ≤ s.table.m_lastConnId + 1
    rw [newConnIds_append, newConnIds_single_nc] at hid
    rcases List.mem_append.mp hid with h1 | h1
    · have := h.ncLe id h1; omega
    · rw [List.mem_singleton.mp h1]
  · intro p hp
    rcases List.mem_cons.mp hp with rfl | hp1
    · exact fun _ => rfl
    · exact h.queueSend p hp1

/-- `closeAll` preserves the invariant. -/
theorem inv_closeAll {s : Sys} (h : SysInv s) :
    SysInv { s with table := s.table.closeAll } := by
  refine ⟨?_, ?_, ?_, ?_, ?_, ?_, ?_, ?_, ?_, ?_, ?_, ?_, ?_, ?_, ?_⟩
  · intro p hp
    obtain ⟨q, hq, rfl⟩ := mem_closeAll_iff.mp hp
    exact h.idsEq q hq
  · exact nodup_keys_closeAll h.nodup
  · intro p hp
    obtain ⟨q, hq, rfl⟩ := mem_closeAll_iff.mp hp
    exact h.readCount q hq
  · intro p hp
    obtain ⟨q, hq, rfl⟩ := mem_closeAll_iff.mp hp
    exact h.sendCount q hq
  · intro id hid
    exact mem_keys_closeAll.mpr (h.readsInTbl id hid)
  · intro id hid
    exact mem_keys_closeAll.mpr (h.writesInTbl id hid)
  · exact h.noUb
  · intro id hid
    exact h.idLe id (mem_keys_closeAll.mp hid)
  · exact h.evLe
  · exact h.discLe
  · intro p hp
    obtain ⟨q, hq, rfl⟩ := mem_closeAll_iff.mp hp
    intro hopen
    exact absurd hopen (by simp)
  · intro p hp
    obtain ⟨q, hq, rfl⟩ := mem_closeAll_iff.mp hp
    exact h.tblNC q hq
  · exact h.ncSorted
  · exact h.ncLe
  · intro p hp
    obtain ⟨q, hq, rfl⟩ := mem_closeAll_iff.mp hp
    exact h.queueSend q hq

theorem inv_set_logs {s : Sys} (h : SysInv s) (L : List LogMsg) :
    SysInv { s with logs := L } :=
  sysInv_of_eq h rfl rfl rfl rfl rfl

theorem inv_set_wire {s : Sys} (h : SysInv s) (w : List (Nat × ServerFrame)) :
    SysInv { s with wire := w } :=
  sysInv_of_eq h rfl rfl rfl rfl rfl

/-- The central preservation theorem: every action of the event loop
preserves the invariant. -/
theorem inv_step {s : Sys} (h : SysInv s) (a : Act) : SysInv (step s a) := by
  cases a with
  | accept ok =>
      simp only [step]
      by_cases hstop : (s.m_isStopped || !s.acceptorOpen) = true
      · rw [if_pos hstop]; exact h
      · rw [if_neg hstop]
        cases ok with
        | true => simpa using inv_accept_true h
        | false =>
            simp only [Bool.false_eq_true, if_false]
            exact sysInv_of_eq h rfl rfl rfl rfl rfl
  | recvComplete id r =>
      simp only [step]
      by_cases hmem : id ∈ s.pendingReads
      · rw [if_pos hmem]
        rcases hfind : s.table.find id with _ | c
        · exact absurd (h.readsInTbl id hmem) (find_eq_none_iff.mp hfind)
        · have hc : (id, c) ∈ s.table.m_connections := find_some_mem hfind
          have hcid : c.m_id = id := h.idsEq _ hc
          subst hcid
          have hE := inv_recvEntry h hc hmem
          have hc1 : (c.m_id, ({ c with m_isReading := false } : Connection)) ∈
              (tblUpdate s.table { c with m_isReading := false }).m_connections :=
            mem_tblUpdate_self hc
          have hck : c.m_id ∈ keys s.table := List.mem_map.mpr ⟨_, hc, rfl⟩
          cases r with
          | rerr eof =>
              simp only [onRecvComplete]
              cases eof with
              | true =>
                  simp only [if_pos rfl]
                  exact inv_drop (c := { c with m_isReading := false }) hE hc1
              | false =>
                  simp only [Bool.false_eq_true, if_false]
                  exact inv_drop (c := { c with m_isReading := false })
                    (inv_set_logs hE _) hc1
          | rinvalid =>
              simp only [onRecvComplete]
              by_cases hcl : c.m_isClosed = true
              · rw [if_neg (by simp [hcl])]
                exact inv_drop (c := { c with m_isReading := false }) hE hc1
              · have hcl' : c.m_isClosed = false := by simpa using hcl
                rw [if_pos (by simp [hcl'])]
                exact inv_drop (c := { c with m_isReading := false })
                  (inv_set_logs hE _) hc1
          | rvalid op msg =>
              simp only [onRecvComplete]
              by_cases hcl : c.m_isClosed = true
              · rw [if_neg (by simp [hcl])]
                exact inv_drop (c := { c with m_isReading := false }) hE hc1
              · have hcl' : c.m_isClosed = false := by simpa using hcl
                rw [if_pos (by simp [hcl'])]
                by_cases hop : op = Opcode.Close
                · rw [if_pos hop]
                  have hsf := inv_sendFrame
                    (c := { c with m_isReading := false }) hE hc1
                    Opcode.Close ""
                  refine inv_drop hsf.1 ?_
                  rw [hsf.2.1]
                  exact hsf.2.2.1
                · rw [if_neg hop]
                  have hid' : c.m_id ∈ keys (tblUpdate s.table
                      { c with m_isReading := false }) :=
                    mem_keys_tblUpdate.mpr hck
                  have hPF := inv_processFrame hE hid' op msg
                  refine inv_beginRecv (c := { c with m_isReading := false })
                    hPF ?_ rfl
                  rw [processFrame_table]
                  exact hc1
      · rw [if_neg hmem]; exact h
  | sendComplete id err =>
      simp only [step]
      by_cases hmem : id ∈ s.pendingWrites
      · rw [if_pos hmem]
        rcases hfind : s.table.find id with _ | c
        · exact absurd (h.writesInTbl id hmem) (find_eq_none_iff.mp hfind)
        · have hc : (id, c) ∈ s.table.m_connections := find_some_mem hfind
          have hcid : c.m_id = id := h.idsEq _ hc
          subst hcid
          have hE := inv_sendEntry h hc hmem
          have hc1 : (c.m_id, ({ c with m_isSending := false } : Connection)) ∈
              (tblUpdate s.table { c with m_isSending := false }).m_connections :=
            mem_tblUpdate_self hc
          cases err with
          | true =>
              simp only [onSendComplete, if_pos rfl]
              exact inv_drop (c := { c with m_isSending := false })
                (inv_set_logs hE _) hc1
          | false =>
              simp only [onSendComplete, Bool.false_eq_true, if_false]
              have hEw := inv_set_wire hE (s.wire ++
                ((c.m_sendQueue.head?.map (fun f => (c.m_id, f))).toList))
              by_cases hcl : c.m_isClosed = true
              · rw [if_neg (by simp [hcl])]
                exact inv_drop (c := { c with m_isSending := false }) hEw hc1
              · have hcl' : c.m_isClosed = false := by simpa using hcl
                rw [if_pos (by simp [hcl'])]
                have hup := inv_update hEw (c := { c with m_isSending := false, m_sendQueue := c.m_sendQueue.tail }) hc1 (hE.readCount (c.m_id, { c with m_isSending := false }) hc1) (hE.sendCount (c.m_id, { c with m_isSending := false }) hc1) (fun _ => hE.openNoDisc (c.m_id, { c with m_isSending := false }) hc1 hcl') (fun _ => rfl)
                by_cases hqe : (c.m_sendQueue.tail).isEmpty = true
                · rw [if_neg (by simp [hqe])]
                  exact hup
                · rw [if_pos (by simp [Bool.not_eq_true] at hqe ⊢; exact hqe)]
                  have hq : ({ c with m_isSending := false, m_sendQueue := c.m_sendQueue.tail } : Connection).m_sendQueue ≠ [] := by
                    simpa [List.isEmpty_iff] using hqe
                  exact (inv_sendNext (c := { c with m_isSending := false, m_sendQueue := c.m_sendQueue.tail }) hup (mem_tblUpdate_self hc1) rfl hq).1
      · rw [if_neg hmem]; exact h
  | apiSend id msg isBinary =>
      simp only [step]
      rcases hfind : s.table.find id with _ | c
      · exact h
      · have hc : (id, c) ∈ s.table.m_connections := find_some_mem hfind
        have hcid : c.m_id = id := h.idsEq _ hc
        subst hcid
        exact (inv_sendFrame h hc _ msg).1
  | apiDrop id =>
      simp only [step]
      rcases hfind : s.table.find id with _ | c
      · exact h
      · have hc : (id, c) ∈ s.table.m_connections := find_some_mem hfind
        have hcid : c.m_id = id := h.idsEq _ hc
        subst hcid
        exact inv_drop h hc
  | stop =>
      simp only [step]
      by_cases hj : s.joined = true
      · simp only [hj, if_pos rfl]
        exact sysInv_of_eq (inv_closeAll h) rfl rfl rfl rfl rfl
      · simp only [hj, Bool.false_eq_true, if_false]
        exact sysInv_of_eq (inv_closeAll h) rfl rfl rfl rfl rfl

/-- The invariant holds in every reachable state. -/
theorem inv_run_from {s : Sys} (h : SysInv s) (acts : List Act) :
    SysInv (acts.foldl step s) := by
  induction acts generalizing s with
  | nil => exact h
  | cons a acts ih => exact ih (inv_step h a)

theorem inv_run (acts : List Act) : SysInv (run acts) :=
  inv_run_from sysInv_init acts

/-! ## Characterizing the event trace of a step -/

/-- `drop` either leaves the trace alone (connection already closed) or
appends exactly one `Disconnect` for an open connection. -/
theorem drop_events (s : Sys) (c : Connection) :
    (ServerLogic.drop s c).events = s.events ∨
    (c.m_isClosed = false ∧
      (ServerLogic.drop s c).events =
        s.events ++ [(Event.Disconnect, c.m_id, "")]) := by
  by_cases hcl : c.m_isClosed = true
  · rw [drop_eq_of_closed hcl]
    left
    split <;> rfl
  · have hcl' : c.m_isClosed = false := by simpa using hcl
    rw [drop_eq_of_open hcl']
    right
    refine ⟨hcl', ?_⟩
    split <;> rfl

theorem sendFrame_events (s : Sys) (c : Connection) (op : Opcode) (d : String) :
    (sendFrame s c op d).1.events = s.events := by
  simp only [sendFrame]
  split <;> rfl

theorem drop_m_isStopped (s : Sys) (c : Connection) :
    (ServerLogic.drop s c).m_isStopped = s.m_isStopped := by
  by_cases hcl : c.m_isClosed = true
  · rw [drop_eq_of_closed hcl]; split <;> rfl
  · rw [drop_eq_of_open (by simpa using hcl)]; split <;> rfl

theorem sendFrame_m_isStopped (s : Sys) (c : Connection) (op : Opcode)
    (d : String) : (sendFrame s c op d).1.m_isStopped = s.m_isStopped := by
  simp only [sendFrame]
  split <;> rfl

theorem sendFrame_snd_m_id (s : Sys) (c : Connection) (op : Opcode)
    (d : String) : (sendFrame s c op d).2.m_id = c.m_id := by
  simp only [sendFrame]
  split <;> rfl

theorem sendFrame_snd_m_isClosed (s : Sys) (c : Connection) (op : Opcode)
    (d : String) : (sendFrame s c op d).2.m_isClosed = c.m_isClosed := by
  simp only [sendFrame]
  split <;> rfl

/-- Every step either leaves the event trace unchanged, or appends exactly
one event: a `NewConnection` for the freshly allocated id (only while not
stopped), a `Message` for an open registered connection, or a `Disconnect`
for an open registered connection. -/
theorem step_events {s : Sys} (h : SysInv s) (a : Act) :
    (step s a).events = s.events ∨
    ((step s a).events =
        s.events ++ [(Event.NewConnection, s.table.m_lastConnId + 1, "")] ∧
      s.m_isStopped = false ∧ a = Act.accept true) ∨
    (∃ c m, (c.m_id, c) ∈ s.table.m_connections ∧ c.m_isClosed = false ∧
      (step s a).events = s.events ++ [(Event.Message, c.m_id, m)]) ∨
    (∃ c, (c.m_id, c) ∈ s.table.m_connections ∧ c.m_isClosed = false ∧
      (step s a).events = s.events ++ [(Event.Disconnect, c.m_id, "")]) := by
  cases a with
  | accept ok =>
      simp only [step]
      by_cases hstop : (s.m_isStopped || !s.acceptorOpen) = true
      · rw [if_pos hstop]; exact Or.inl rfl
      · rw [if_neg hstop]
        have hns : s.m_isStopped = false := by
          rcases Bool.or_eq_false_iff.mp (Bool.not_eq_true _ ▸ hstop)
            with ⟨h1, _⟩
          exact h1
        cases ok with
        | true =>
            exact Or.inr (Or.inl ⟨rfl, hns, rfl⟩)
        | false =>
            simp only [Bool.false_eq_true, if_false]
            exact Or.inl trivial
  | recvComplete j r =>
      simp only [step]
      by_cases hmem : j ∈ s.pendingReads
      · rw [if_pos hmem]
        rcases hfind : s.table.find j with _ | c
        · exact absurd (h.readsInTbl j hmem) (find_eq_none_iff.mp hfind)
        · have hc : (j, c) ∈ s.table.m_connections := find_some_mem hfind
          have hcid : c.m_id = j := h.idsEq _ hc
          subst hcid
          cases r with
          | rerr eof =>
              simp only [onRecvComplete]
              cases eof with
              | true =>
                  rw [if_pos rfl]
                  rcases drop_events _ ({ c with m_isReading := false }) with
                    h1 | ⟨h1, h2⟩
                  · exact Or.inl h1
                  · exact Or.inr (Or.inr (Or.inr ⟨c, hc, h1, h2⟩))
              | false =>
                  simp only [Bool.false_eq_true, if_false]
                  rcases drop_events _ ({ c with m_isReading := false }) with
                    h1 | ⟨h1, h2⟩
                  · exact Or.inl h1
                  · exact Or.inr (Or.inr (Or.inr ⟨c, hc, h1, h2⟩))
          | rinvalid =>
              simp only [onRecvComplete]
              by_cases hcl : c.m_isClosed = true
              · rw [if_neg (by simp [hcl])]
                rcases drop_events _ ({ c with m_isReading := false }) with
                  h1 | ⟨h1, h2⟩
                · exact Or.inl h1
                · exact Or.inr (Or.inr (Or.inr ⟨c, hc, h1, h2⟩))
              · rw [if_pos (by simp [Bool.not_eq_true _ ▸ hcl])]
                rcases drop_events _ ({ c with m_isReading := false }) with
                  h1 | ⟨h1, h2⟩
                · exact Or.inl h1
                · exact Or.inr (Or.inr (Or.inr ⟨c, hc, h1, h2⟩))
          | rvalid op msg =>
              simp only [onRecvComplete]
              by_cases hcl : c.m_isClosed = true
              · rw [if_neg (by simp [hcl])]
                rcases drop_events _ ({ c with m_isReading := false }) with
                  h1 | ⟨h1, h2⟩
                · exact Or.inl h1
                · exact Or.inr (Or.inr (Or.inr ⟨c, hc, h1, h2⟩))
              · have hcl' : c.m_isClosed = false := by simpa using hcl
                rw [if_pos (by simp [hcl'])]
                by_cases hop : op = Opcode.Close
                · rw [if_pos hop]
                  rcases drop_events (sendFrame { s with pendingReads := s.pendingReads.erase c.m_id, table := tblUpdate s.table { c with m_isReading := false } } { c with m_isReading := false } Opcode.Close "").1 (sendFrame { s with pendingReads := s.pendingReads.erase c.m_id, table := tblUpdate s.table { c with m_isReading := false } } { c with m_isReading := false } Opcode.Close "").2 with h1 | ⟨h1, h2⟩
                  · rw [sendFrame_events] at h1
                    exact Or.inl h1
                  · rw [sendFrame_events, sendFrame_snd_m_id] at h2
                    exact Or.inr (Or.inr (Or.inr ⟨c, hc, hcl', h2⟩))
                · rw [if_neg hop]
                  rcases processFrame_events { s with pendingReads := s.pendingReads.erase c.m_id, table := tblUpdate s.table { c with m_isReading := false } } c.m_id op msg with h1 | h1
                  · exact Or.inl h1
                  · exact Or.inr (Or.inr (Or.inl ⟨c, msg, hc, hcl', h1⟩))
      · rw [if_neg hmem]; exact Or.inl rfl
  | sendComplete j err =>
      simp only [step]
      by_cases hmem : j ∈ s.pendingWrites
      · rw [if_pos hmem]
        rcases hfind : s.table.find j with _ | c
        · exact absurd (h.writesInTbl j hmem) (find_eq_none_iff.mp hfind)
        · have hc : (j, c) ∈ s.table.m_connections := find_some_mem hfind
          have hcid : c.m_id = j := h.idsEq _ hc
          subst hcid
          cases err with
          | true =>
              simp only [onSendComplete, if_pos rfl]
              rcases drop_events _ ({ c with m_isSending := false }) with
                h1 | ⟨h1, h2⟩
              · exact Or.inl h1
              · exact Or.inr (Or.inr (Or.inr ⟨c, hc, h1, h2⟩))
          | false =>
              simp only [onSendComplete, Bool.false_eq_true, if_false]
              by_cases hcl : c.m_isClosed = true
              · rw [if_neg (by simp [hcl])]
                rcases drop_events _ ({ c with m_isSending := false }) with
                  h1 | ⟨h1, h2⟩
                · exact Or.inl h1
                · exact Or.inr (Or.inr (Or.inr ⟨c, hc, h1, h2⟩))
              · rw [if_pos (by simp [Bool.not_eq_true _ ▸ hcl])]
                by_cases hqe : (c.m_sendQueue.tail).isEmpty = true
                · rw [if_neg (by simp [hqe])]
                  exact Or.inl rfl
                · rw [if_pos (by simp [Bool.not_eq_true] at hqe ⊢; exact hqe)]
                  exact Or.inl rfl
      · rw [if_neg hmem]; exact Or.inl rfl
  | apiSend j msg isBinary =>
      simp only [step]
      rcases hfind : s.table.find j with _ | c
      · exact Or.inl rfl
      · exact Or.inl (sendFrame_events _ _ _ _)
  | apiDrop j =>
      simp only [step]
      rcases hfind : s.table.find j with _ | c
      · exact Or.inl rfl
      · have hc : (j, c) ∈ s.table.m_connections := find_some_mem hfind
        have hcid : c.m_id = j := h.idsEq _ hc
        subst hcid
        rcases drop_events s c with h1 | ⟨h1, h2⟩
        · exact Or.inl h1
        · exact Or.inr (Or.inr (Or.inr ⟨c, hc, h1, h2⟩))
  | stop =>
      simp only [step]
      by_cases hj : s.joined = true
      · rw [if_pos hj]; exact Or.inl rfl
      · rw [if_neg hj]; exact Or.inl rfl

/-- A step changes the `Disconnect` count of `id` only by dropping an open
connection registered under `id` — one for which `NewConnection` has fired
exactly once. -/
theorem disc_step {s : Sys} (h : SysInv s) (a : Act) (id : Nat)
    (hne : eventCount Event.Disconnect id (step s a).events ≠
      eventCount Event.Disconnect id s.events) :
    ∃ c, (id, c) ∈ s.table.m_connections ∧ c.m_isClosed = false ∧
      eventCount Event.NewConnection id s.events = 1 := by
  rcases step_events h a with h1 | ⟨h1, _, _⟩ | ⟨c, m, hc, hcl, h1⟩ |
    ⟨c, hc, hcl, h1⟩
  · rw [h1] at hne; exact absurd rfl hne
  · rw [h1, eventCount_append, eventCount_single, if_neg (by simp)] at hne
    simp at hne
  · rw [h1, eventCount_append, eventCount_single, if_neg (by simp)] at hne
    simp at hne
  · by_cases hid : c.m_id = id
    · subst hid
      exact ⟨c, hc, hcl, h.tblNC (c.m_id, c) hc⟩
    · rw [h1, eventCount_append, eventCount_single,
        if_neg (by rintro ⟨-, e⟩; exact hid e)] at hne
      simp at hne

/-- A step changes a `NewConnection` count only if it is a successful accept
on a non-stopped server. -/
theorem nc_step {s : Sys} (h : SysInv s) (a : Act) (id : Nat)
    (hne : eventCount Event.NewConnection id (step s a).events ≠
      eventCount Event.NewConnection id s.events) :
    a = Act.accept true ∧ s.m_isStopped = false := by
  rcases step_events h a with h1 | ⟨h1, h2, h3⟩ | ⟨c, m, hc, hcl, h1⟩ |
    ⟨c, hc, hcl, h1⟩
  · rw [h1] at hne; exact absurd rfl hne
  · exact ⟨h3, h2⟩
  · rw [h1, eventCount_append, eventCount_single, if_neg (by simp)] at hne
    simp at hne
  · rw [h1, eventCount_append, eventCount_single, if_neg (by simp)] at hne
    simp at hne

/-! ## The system after `stop`: all connections closed, no further events -/

/-- After `stop` ran: the server is flagged stopped and every connection
still in the table is closed. -/
def Halted (s : Sys) : Prop :=
  s.m_isStopped = true ∧
  ∀ p ∈ s.table.m_connections, p.2.m_isClosed = true

theorem tblUpdate_all_closed {t : ConnectionTable} {c : Connection}
    (hall : ∀ p ∈ t.m_connections, p.2.m_isClosed = true)
    (hcc : c.m_isClosed = true) :
    ∀ p ∈ (tblUpdate t c).m_connections, p.2.m_isClosed = true := by
  intro p hp
  rcases mem_tblUpdate_iff.mp hp with ⟨hp1, _⟩ | ⟨rfl, _⟩
  · exact hall p hp1
  · exact hcc

theorem drop_halted_conns {s : Sys} {c : Connection}
    (hall : ∀ p ∈ s.table.m_connections, p.2.m_isClosed = true) :
    ∀ p ∈ (ServerLogic.drop s c).table.m_connections, p.2.m_isClosed = true := by
  by_cases hcl : c.m_isClosed = true
  · rw [drop_eq_of_closed hcl]
    split
    · exact fun p hp => hall p (mem_erase_iff.mp hp).1
    · exact hall
  · rw [drop_eq_of_open (by simpa using hcl)]
    split
    · intro p hp
      exact tblUpdate_all_closed hall rfl p (mem_erase_iff.mp hp).1
    · exact tblUpdate_all_closed hall rfl

theorem sendFrame_halted_conns {s : Sys} {c : Connection} {op : Opcode}
    {d : String} (hall : ∀ p ∈ s.table.m_connections, p.2.m_isClosed = true)
    (hcc : c.m_isClosed = true) :
    ∀ p ∈ (sendFrame s c op d).1.table.m_connections,
      p.2.m_isClosed = true := by
  simp only [sendFrame]
  split
  · exact tblUpdate_all_closed (tblUpdate_all_closed hall hcc) hcc
  · exact tblUpdate_all_closed hall hcc

theorem processFrame_m_isStopped (s : Sys) (id : Nat) (op : Opcode)
    (msg : String) :
    (ServerLogic.processFrame s id op msg).m_isStopped = s.m_isStopped := by
  unfold ServerLogic.processFrame
  split <;> rfl

/-- Once halted, the system stays halted. -/
theorem step_halted {s : Sys} (h : SysInv s) (hh : Halted s) (a : Act) :
    Halted (step s a) := by
  obtain ⟨hstop, hall⟩ := hh
  cases a with
  | accept ok =>
      simp only [step]
      rw [if_pos (by simp [hstop])]
      exact ⟨hstop, hall⟩
  | recvComplete j r =>
      simp only [step]
      by_cases hmem : j ∈ s.pendingReads
      · rw [if_pos hmem]
        rcases hfind : s.table.find j with _ | c
        · exact absurd (h.readsInTbl j hmem) (find_eq_none_iff.mp hfind)
        · have hc : (j, c) ∈ s.table.m_connections := find_some_mem hfind
          have hcid : c.m_id = j := h.idsEq _ hc
          subst hcid
          have hcc : c.m_isClosed = true := hall _ hc
          have hallE : ∀ p ∈ (tblUpdate s.table
              { c with m_isReading := false }).m_connections,
              p.2.m_isClosed = true := tblUpdate_all_closed hall hcc
          cases r with
          | rerr eof =>
              simp only [onRecvComplete]
              cases eof with
              | true =>
                  rw [if_pos rfl]
                  exact ⟨(drop_m_isStopped _ _).trans hstop,
                    drop_halted_conns hallE⟩
              | false =>
                  simp only [Bool.false_eq_true, if_false]
                  exact ⟨(drop_m_isStopped _ _).trans hstop,
                    drop_halted_conns hallE⟩
          | rinvalid =>
              simp only [onRecvComplete]
              rw [if_neg (by simp [hcc])]
              exact ⟨(drop_m_isStopped _ _).trans hstop,
                drop_halted_conns hallE⟩
          | rvalid op msg =>
              simp only [onRecvComplete]
              rw [if_neg (by simp [hcc])]
              exact ⟨(drop_m_isStopped _ _).trans hstop,
                drop_halted_conns hallE⟩
      · rw [if_neg hmem]
        exact ⟨hstop, hall⟩
  | sendComplete j err =>
      simp only [step]
      by_cases hmem : j ∈ s.pendingWrites
      · rw [if_pos hmem]
        rcases hfind : s.table.find j with _ | c
        · exact absurd (h.writesInTbl j hmem) (find_eq_none_iff.mp hfind)
        · have hc : (j, c) ∈ s.table.m_connections := find_some_mem hfind
          have hcid : c.m_id = j := h.idsEq _ hc
          subst hcid
          have hcc : c.m_isClosed = true := hall _ hc
          have hallE : ∀ p ∈ (tblUpdate s.table
              { c with m_isSending := false }).m_connections,
              p.2.m_isClosed = true := tblUpdate_all_closed hall hcc
          cases err with
          | true =>
              simp only [onSendComplete, if_pos rfl]
              exact ⟨(drop_m_isStopped _ _).trans hstop,
                drop_halted_conns hallE⟩
          | false =>
              simp only [onSendComplete, Bool.false_eq_true, if_false]
              rw [if_neg (by simp [hcc])]
              exact ⟨(drop_m_isStopped _ _).trans hstop,
                drop_halted_conns hallE⟩
      · rw [if_neg hmem]
        exact ⟨hstop, hall⟩
  | apiSend j msg isBinary =>
      simp only [step]
      rcases hfind : s.table.find j with _ | c
      · exact ⟨hstop, hall⟩
      · have hc : (j, c) ∈ s.table.m_connections := find_some_mem hfind
        have hcid : c.m_id = j := h.idsEq _ hc
        subst hcid
        exact ⟨(sendFrame_m_isStopped _ _ _ _).trans hstop,
          sendFrame_halted_conns hall (hall _ hc)⟩
  | apiDrop j =>
      simp only [step]
      rcases hfind : s.table.find j with _ | c
      · exact ⟨hstop, hall⟩
      · have hc : (j, c) ∈ s.table.m_connections := find_some_mem hfind
        have hcid : c.m_id = j := h.idsEq _ hc
        subst hcid
        exact ⟨(drop_m_isStopped _ _).trans hstop, drop_halted_conns hall⟩
  | stop =>
      simp only [step]
      by_cases hj : s.joined = true
      · rw [if_pos hj]
        exact ⟨rfl, fun p hp => by
          obtain ⟨q, hq, rfl⟩ := mem_closeAll_iff.mp hp; rfl⟩
      · rw [if_neg hj]
        exact ⟨rfl, fun p hp => by
          obtain ⟨q, hq, rfl⟩ := mem_closeAll_iff.mp hp; rfl⟩

/-- Once halted, the event trace is frozen forever. -/
theorem halted_run {s : Sys} (h : SysInv s) (hh : Halted s) (acts : List Act) :
    Halted (acts.foldl step s) ∧ (acts.foldl step s).events = s.events := by
  induction acts generalizing s with
  | nil => exact ⟨hh, rfl⟩
  | cons a acts ih =>
      have hev : (step s a).events = s.events := by
        rcases step_events h a with h1 | ⟨h1, h2, _⟩ | ⟨c, m, hc, hcl, h1⟩ |
          ⟨c, hc, hcl, h1⟩
        · exact h1
        · exact absurd h2 (by simp [hh.1])
        · exact absurd (hh.2 _ hc) (by simp [hcl])
        · exact absurd (hh.2 _ hc) (by simp [hcl])
      obtain ⟨hh', he'⟩ := ih (inv_step h a) (step_halted h hh a)
      exact ⟨hh', he'.trans hev⟩

/-! ## Idempotence of the posted drop work item -/

/-- Running the posted `drop` work item twice for the same id is the same as
running it once: the second run either no longer finds the connection, or
finds it already closed with its flags unchanged, and does nothing. -/
theorem apiDrop_idem {s : Sys} (h : SysInv s) (id : Nat) :
    step (step s (Act.apiDrop id)) (Act.apiDrop id) =
      step s (Act.apiDrop id) := by
  simp only [step]
  rcases hfind : s.table.find id with _ | c
  · rw [hfind]
  · have hc : (id, c) ∈ s.table.m_connections := find_some_mem hfind
    have hcid : c.m_id = id := h.idsEq _ hc
    subst hcid
    show (match (ServerLogic.drop s c).table.find c.m_id with
      | some c1 => ServerLogic.drop (ServerLogic.drop s c) c1
      | none => ServerLogic.drop s c) = ServerLogic.drop s c
    by_cases hcl : c.m_isClosed = true
    · rw [drop_eq_of_closed hcl]
      by_cases hf : (!c.m_isReading && !c.m_isSending) = true
      · rw [if_pos hf]
        have hfe : (({ s with table := s.table.erase c.m_id } :
            Sys)).table.find c.m_id = none :=
          find_eq_none_iff.mpr (fun hm => (mem_keys_erase.mp hm).2 rfl)
        rw [hfe]
      · rw [if_neg hf]
        rw [find_eq_some_of_mem h.nodup hc]
        show ServerLogic.drop s c = s
        rw [drop_eq_of_closed hcl, if_neg hf]
    · have hcl' : c.m_isClosed = false := by simpa using hcl
      rw [drop_eq_of_open hcl']
      by_cases hf : (!c.m_isReading && !c.m_isSending) = true
      · rw [if_pos hf]
        have hfe : (({ s with
            table := (tblUpdate s.table { c with m_isClosed := true }).erase
              c.m_id,
            events := s.events ++ [(Event.Disconnect, c.m_id, "")] } :
            Sys)).table.find c.m_id = none :=
          find_eq_none_iff.mpr (fun hm => (mem_keys_erase.mp hm).2 rfl)
        rw [hfe]
      · rw [if_neg hf]
        have hmf : (({ s with
            table := tblUpdate s.table { c with m_isClosed := true },
            events := s.events ++ [(Event.Disconnect, c.m_id, "")] } :
            Sys)).table.find c.m_id =
            some { c with m_isClosed := true } :=
          find_eq_some_of_mem (nodup_keys_tblUpdate h.nodup)
            (mem_tblUpdate_self hc)
        rw [hmf]
        show ServerLogic.drop { s with table := tblUpdate s.table { c with m_isClosed := true }, events := s.events ++ [(Event.Disconnect, c.m_id, "")] } { c with m_isClosed := true } = { s with table := tblUpdate s.table { c with m_isClosed := true }, events := s.events ++ [(Event.Disconnect, c.m_id, "")] }
        rw [drop_eq_of_closed (show ({ c with m_isClosed := true } :
            Connection).m_isClosed = true from rfl),
          if_neg (show ¬((!({ c with m_isClosed := true } :
            Connection).m_isReading &&
            !({ c with m_isClosed := true } : Connection).m_isSending) = true)
            from hf)]

/-! ## The join bookkeeping of `stop` -/

theorem drop_joined (s : Sys) (c : Connection) :
    (ServerLogic.drop s c).joined = s.joined ∧
    (ServerLogic.drop s c).joinError = s.joinError := by
  by_cases hcl : c.m_isClosed = true
  · rw [drop_eq_of_closed hcl]; constructor <;> split <;> rfl
  · rw [drop_eq_of_open (by simpa using hcl)]; constructor <;> split <;> rfl

theorem sendFrame_joined (s : Sys) (c : Connection) (op : Opcode) (d : String) :
    (sendFrame s c op d).1.joined = s.joined ∧
    (sendFrame s c op d).1.joinError = s.joinError := by
  simp only [sendFrame]; constructor <;> split <;> rfl

theorem processFrame_joined (s : Sys) (id : Nat) (op : Opcode) (msg : String) :
    (ServerLogic.processFrame s id op msg).joined = s.joined ∧
    (ServerLogic.processFrame s id op msg).joinError = s.joinError := by
  unfold ServerLogic.processFrame; constructor <;> split <;> rfl

theorem onRecvComplete_joined (s : Sys) (c : Connection) (r : ReadResult) :
    (onRecvComplete s c r).joined = s.joined ∧
    (onRecvComplete s c r).joinError = s.joinError := by
  cases r with
  | rerr eof =>
      simp only [onRecvComplete]
      cases eof with
      | true =>
          rw [if_pos rfl]
          exact ⟨(drop_joined _ _).1, (drop_joined _ _).2⟩
      | false =>
          simp only [Bool.false_eq_true, if_false]
          exact ⟨(drop_joined _ _).1, (drop_joined _ _).2⟩
  | rinvalid =>
      simp only [onRecvComplete]
      split
      · exact ⟨(drop_joined _ _).1, (drop_joined _ _).2⟩
      · exact ⟨(drop_joined _ _).1, (drop_joined _ _).2⟩
  | rvalid op msg =>
      simp only [onRecvComplete]
      split
      · split
        · exact ⟨(drop_joined _ _).1.trans (sendFrame_joined _ _ _ _).1,
            (drop_joined _ _).2.trans (sendFrame_joined _ _ _ _).2⟩
        · exact ⟨(processFrame_joined _ _ _ _).1,
            (processFrame_joined _ _ _ _).2⟩
      · exact ⟨(drop_joined _ _).1, (drop_joined _ _).2⟩

theorem onSendComplete_joined (s : Sys) (c : Connection) (err : Bool) :
    (onSendComplete s c err).joined = s.joined ∧
    (onSendComplete s c err).joinError = s.joinError := by
  cases err with
  | true =>
      simp only [onSendComplete, if_pos rfl]
      exact ⟨(drop_joined _ _).1, (drop_joined _ _).2⟩
  | false =>
      simp only [onSendComplete, Bool.false_eq_true, if_false]
      split
      · split
        · constructor <;> rfl
        · constructor <;> rfl
      · exact ⟨(drop_joined _ _).1, (drop_joined _ _).2⟩

/-- Every action except `stop` leaves the join bookkeeping alone. -/
theorem step_joined {s : Sys} {a : Act} (hne : a ≠ Act.stop) :
    (step s a).joined = s.joined ∧ (step s a).joinError = s.joinError := by
  cases a with
  | accept ok =>
      simp only [step]
      split
      · exact ⟨rfl, rfl⟩
      · split <;> exact ⟨rfl, rfl⟩
  | recvComplete j r =>
      simp only [step]
      split
      · rcases hfind : s.table.find j with _ | c
        · exact ⟨rfl, rfl⟩
        · exact ⟨(onRecvComplete_joined _ _ _).1,
            (onRecvComplete_joined _ _ _).2⟩
      · exact ⟨rfl, rfl⟩
  | sendComplete j err =>
      simp only [step]
      split
      · rcases hfind : s.table.find j with _ | c
        · exact ⟨rfl, rfl⟩
        · exact ⟨(onSendComplete_joined _ _ _).1,
            (onSendComplete_joined _ _ _).2⟩
      · exact ⟨rfl, rfl⟩
  | apiSend j msg isBinary =>
      simp only [step]
      rcases hfind : s.table.find j with _ | c
      · exact ⟨rfl, rfl⟩
      · exact ⟨(sendFrame_joined _ _ _ _).1, (sendFrame_joined _ _ _ _).2⟩
  | apiDrop j =>
      simp only [step]
      rcases hfind : s.table.find j with _ | c
      · exact ⟨rfl, rfl⟩
      · exact ⟨(drop_joined _ _).1, (drop_joined _ _).2⟩
  | stop => exact absurd rfl hne

/-- A run that never executes `stop` keeps `joined` and `joinError` clear. -/
theorem nostop_foldl {s : Sys} (acts : List Act) (h : Act.stop ∉ acts) :
    (acts.foldl step s).joined = s.joined ∧
    (acts.foldl step s).joinError = s.joinError := by
  induction acts generalizing s with
  | nil => exact ⟨rfl, rfl⟩
  | cons a acts ih =>
      have hne : a ≠ Act.stop := fun e => h (e ▸ List.mem_cons_self a acts)
      have hrest : Act.stop ∉ acts := fun e => h (List.mem_cons_of_mem a e)
      obtain ⟨h1, h2⟩ := ih (s := step s a) hrest
      exact ⟨h1.trans (step_joined hne).1, h2.trans (step_joined hne).2⟩

/-- What one `stop` does: sets the stopped flag, closes the acceptor,
closes every connection, emits nothing, and joins the worker (when it was
not already joined). -/
theorem stop_effects {s : Sys} :
    (step s Act.stop).m_isStopped = true ∧
    (step s Act.stop).acceptorOpen = false ∧
    (step s Act.stop).events = s.events ∧
    (∀ p ∈ (step s Act.stop).table.m_connections, p.2.m_isClosed = true) ∧
    (s.joined = false → (step s Act.stop).joined = true ∧
      (step s Act.stop).joinError = s.joinError) := by
  simp only [step]
  by_cases hj : s.joined = true
  · rw [if_pos hj]
    refine ⟨rfl, rfl, rfl, ?_, ?_⟩
    · intro p hp
      obtain ⟨q, hq, rfl⟩ := mem_closeAll_iff.mp hp
      rfl
    · intro hf; exact absurd hj (by simp [hf])
  · rw [if_neg hj]
    refine ⟨rfl, rfl, rfl, ?_, fun _ => ⟨rfl, rfl⟩⟩
    intro p hp
    obtain ⟨q, hq, rfl⟩ := mem_closeAll_iff.mp hp
    rfl

/-! ## The claims -/

/-- C1: a Connection is never destroyed (erased from the ConnectionTable)
while an outstanding asynchronous read or write still refers to it: in every
reachable state no completion has ever fired for a destroyed connection
(`ub = false`), and every outstanding operation belongs to a connection that
is still in the table.  Together with `ServerLogic.drop` — the only erase
site, which erases only under `closed ∧ ¬reading ∧ ¬sending` — this is the
central lifecycle invariant. -/
theorem C1_never_destroyed_with_outstanding_op (acts : List Act) :
    (run acts).ub = false ∧
    ∀ id, (id ∈ (run acts).pendingReads ∨ id ∈ (run acts).pendingWrites) →
      id ∈ tblIds (run acts) :=
  ⟨(inv_run acts).noUb,
   fun id hid => hid.elim (fun hm => (inv_run acts).readsInTbl id hm)
     (fun hm => (inv_run acts).writesInTbl id hm)⟩

theorem C1_witness : 1 ∈ tblIds (run [Act.accept true]) :=
  (C1_never_destroyed_with_outstanding_op [Act.accept true]).2 1
    (Or.inl (by decide))

/-- C2: `Disconnect` is delivered at most once per connection; whenever a
step changes a `Disconnect` count it does so for a connection that is still
registered and open (first transition into Closing of a connection for
which `NewConnection` fired exactly once); and the posted `drop` work item
is idempotent — running it twice equals running it once, with no crash. -/
theorem C2_disconnect_once_drop_idempotent (acts : List Act) :
    (∀ id, eventCount Event.Disconnect id (run acts).events ≤ 1) ∧
    (∀ a id, eventCount Event.Disconnect id (step (run acts) a).events ≠
        eventCount Event.Disconnect id (run acts).events →
      ∃ c, (id, c) ∈ (run acts).table.m_connections ∧ c.m_isClosed = false ∧
        eventCount Event.NewConnection id (run acts).events = 1) ∧
    (∀ id, step (step (run acts) (Act.apiDrop id)) (Act.apiDrop id) =
      step (run acts) (Act.apiDrop id)) :=
  ⟨(inv_run acts).discLe, fun a id => disc_step (inv_run acts) a id,
   fun id => apiDrop_idem (inv_run acts) id⟩

theorem C2_witness :
    ∃ c, (1, c) ∈ (run [Act.accept true]).table.m_connections ∧
      c.m_isClosed = false ∧
      eventCount Event.NewConnection 1 (run [Act.accept true]).events = 1 :=
  (C2_disconnect_once_drop_idempotent [Act.accept true]).2.1 (Act.apiDrop 1) 1
    (by decide)

/-- C3 counterexample to the claim as stated: a server with one open,
mid-read connection executes `stop`; the connection is closed and later
erased (after its cancelled read completes) but NO `Disconnect` event is
ever delivered — `closeAll` calls `close()` directly, so the later
`drop` sees `m_isClosed` already true and skips the callback. -/
theorem C3_counterexample :
    ((run [Act.accept true]).m_isStopped = false ∧
      (1, ({ m_id := 1, m_isReading := true } : Connection)) ∈
        (run [Act.accept true]).table.m_connections ∧
      ({ m_id := 1, m_isReading := true } : Connection).m_isClosed = false) ∧
    eventCount Event.Disconnect 1
      (run [Act.accept true, Act.stop,
        Act.recvComplete 1 (ReadResult.rerr true)]).events = 0 ∧
    tblIds (run [Act.accept true, Act.stop,
      Act.recvComplete 1 (ReadResult.rerr true)]) = [] := by decide

/-- C3 (amended): `stop()` flags the server stopped, closes the acceptor,
force-closes every live connection and joins the worker; but the closed
connections do NOT receive a `Disconnect` event — neither at `stop` time
(the trace is unchanged) nor ever afterwards (the trace is frozen). -/
theorem C3_stop_closes_all_no_disconnect (acts : List Act) :
    (step (run acts) Act.stop).m_isStopped = true ∧
    (step (run acts) Act.stop).acceptorOpen = false ∧
    (∀ p ∈ (step (run acts) Act.stop).table.m_connections,
      p.2.m_isClosed = true) ∧
    (step (run acts) Act.stop).events = (run acts).events ∧
    ((run acts).joined = false → (step (run acts) Act.stop).joined = true) ∧
    (∀ more : List Act,
      (more.foldl step (step (run acts) Act.stop)).events =
        (run acts).events) := by
  have h := inv_run acts
  have hse := stop_effects (s := run acts)
  have hH : Halted (step (run acts) Act.stop) := ⟨hse.1, hse.2.2.2.1⟩
  refine ⟨hse.1, hse.2.1, hse.2.2.2.1, hse.2.2.1,
    fun hf => (hse.2.2.2.2 hf).1, ?_⟩
  intro more
  exact ((halted_run (inv_step h Act.stop) hH more).2).trans hse.2.2.1

theorem C3_witness :
    (step (run [Act.accept true]) Act.stop).joined = true :=
  (C3_stop_closes_all_no_disconnect [Act.accept true]).2.2.2.2.1 (by decide)

/-- C5: `NewConnection` is emitted iff the handshake succeeded.  A failed
handshake changes nothing but the log — the connection is never registered
or visible.  A successful accept (server running) registers a fresh reading
connection and emits exactly one `NewConnection` for it; every registered
connection has exactly one `NewConnection` in the trace; and a step can
change a `NewConnection` count only by being a successful accept. -/
theorem C5_newconnection_iff_handshake (acts : List Act) :
    (∃ L, step (run acts) (Act.accept false) = { run acts with logs := L }) ∧
    ((run acts).m_isStopped = false → (run acts).acceptorOpen = true →
      (step (run acts) (Act.accept true)).events =
        (run acts).events ++
          [(Event.NewConnection, (run acts).table.m_lastConnId + 1, "")] ∧
      ((run acts).table.m_lastConnId + 1,
        ({ m_id := (run acts).table.m_lastConnId + 1, m_isReading := true } :
          Connection)) ∈
        (step (run acts) (Act.accept true)).table.m_connections) ∧
    (∀ p ∈ (run acts).table.m_connections,
      eventCount Event.NewConnection p.1 (run acts).events = 1) ∧
    (∀ a id, eventCount Event.NewConnection id (step (run acts) a).events ≠
        eventCount Event.NewConnection id (run acts).events →
      a = Act.accept true ∧ (run acts).m_isStopped = false) := by
  refine ⟨?_, ?_, (inv_run acts).tblNC, fun a id => nc_step (inv_run acts) a id⟩
  · by_cases hstop :
        ((run acts).m_isStopped || !(run acts).acceptorOpen) = true
    · refine ⟨(run acts).logs, ?_⟩
      simp only [step]
      rw [if_pos hstop]
    · refine ⟨(run acts).logs ++ [LogMsg.handshakeFailed], ?_⟩
      simp only [step]
      rw [if_neg hstop]
      rfl
  · intro h1 h2
    constructor
    · show (step (run acts) (Act.accept true)).events = _
      simp only [step]
      rw [if_neg (by simp [h1, h2])]
      rfl
    · show _ ∈ (step (run acts) (Act.accept true)).table.m_connections
      simp only [step]
      rw [if_neg (by simp [h1, h2])]
      exact List.mem_cons_self _ _

theorem C5_witness :
    (step (run []) (Act.accept true)).events =
      (run []).events ++
        [(Event.NewConnection, (run []).table.m_lastConnId + 1, "")] ∧
    ((run []).table.m_lastConnId + 1,
      ({ m_id := (run []).table.m_lastConnId + 1, m_isReading := true } :
        Connection)) ∈
      (step (run []) (Act.accept true)).table.m_connections :=
  (C5_newconnection_iff_handshake []).2.1 (by decide) (by decide)

/-- C7 counterexample to the claim as stated: a second direct invocation of
`stop()` does NOT complete safely — it calls `join()` on the already-joined
worker thread, which raises an error. -/
theorem C7_counterexample :
    (run [Act.stop, Act.stop]).joinError = true := by decide

/-- C7 (amended): `stop` is safe at most once: after an explicit `stop()`
the destructor performs no second stop (`if (!m_isStopped) stop();` is a
no-op on the stopped server) and the single stop joined the worker without
error.  A literal second `stop()` call is what errors (see the
counterexample). -/
theorem C7_dtor_noop_after_stop (acts : List Act) (hn : Act.stop ∉ acts) :
    dtorStep (step (run acts) Act.stop) = step (run acts) Act.stop ∧
    (step (run acts) Act.stop).m_isStopped = true ∧
    (step (run acts) Act.stop).joined = true ∧
    (step (run acts) Act.stop).joinError = false := by
  have hnj := nostop_foldl (s := init) acts hn
  have hse := stop_effects (s := run acts)
  have hj : (run acts).joined = false := hnj.1
  obtain ⟨hjj, hje⟩ := hse.2.2.2.2 hj
  refine ⟨?_, hse.1, hjj, hje.trans hnj.2⟩
  unfold dtorStep
  rw [if_pos hse.1]

theorem C7_witness :
    dtorStep (step (run [Act.accept true]) Act.stop) =
      step (run [Act.accept true]) Act.stop ∧
    (step (run [Act.accept true]) Act.stop).m_isStopped = true ∧
    (step (run [Act.accept true]) Act.stop).joined = true ∧
    (step (run [Act.accept true]) Act.stop).joinError = false :=
  C7_dtor_noop_after_stop [Act.accept true] (by decide)

/-- C9: connection ids are allocated strictly increasingly (hence unique
for the process lifetime and never reused): the allocation history — the
ids of the `NewConnection` events in emission order — is strictly
increasing, every id in the table was allocated, and every allocated id is
smaller than the next id that will ever be allocated. -/
theorem C9_ids_strictly_increasing_never_reused (acts : List Act) :
    (newConnIds (run acts).events).Pairwise (· < ·) ∧
    (∀ id ∈ tblIds (run acts), id ∈ newConnIds (run acts).events) ∧
    (∀ id ∈ newConnIds (run acts).events,
      id < (run acts).table.m_lastConnId + 1) := by
  have h := inv_run acts
  refine ⟨h.ncSorted, ?_, ?_⟩
  · intro id hid
    obtain ⟨p, hp, rfl⟩ := List.mem_map.mp hid
    exact mem_newConnIds_of_eventCount (by rw [h.tblNC p hp]; omega)
  · intro id hid
    have := h.ncLe id hid
    omega

theorem C9_witness :
    1 ∈ newConnIds (run [Act.accept true, Act.accept true]).events :=
  (C9_ids_strictly_increasing_never_reused [Act.accept true, Act.accept true]).2.1
    1 (by decide)

/-- C10: for an id with no live connection in the table, the marshaled
`send` and `drop` work items are complete no-ops: the entire state —
table, every other connection, events, logs — is unchanged and no error is
reported. -/
theorem C10_missing_id_send_drop_noop (acts : List Act) (id : Nat)
    (hfind : (run acts).table.find id = none) (msg : String) (isBinary : Bool) :
    step (run acts) (Act.apiSend id msg isBinary) = run acts ∧
    step (run acts) (Act.apiDrop id) = run acts := by
  constructor
  · simp only [step, hfind]
  · simp only [step, hfind]

theorem C10_witness :
    step (run [Act.accept true]) (Act.apiSend 7 "x" false) =
      run [Act.accept true] ∧
    step (run [Act.accept true]) (Act.apiDrop 7) = run [Act.accept true] :=
  C10_missing_id_send_drop_noop [Act.accept true] 7 (by decide) "x" false

/-- C8: a complete valid frame whose opcode is none of Text/Binary/Close
(Ping, Pong, Continuation, Reserved) produces no event: a warning is
logged, the connection stays open, and a new read is immediately started
for the next frame. -/
theorem C8_unknown_opcode_logged_ignored (acts : List Act) (c : Connection)
    (op : Opcode) (msg : String)
    (hfind : (run acts).table.find c.m_id = some c)
    (hopen : c.m_isClosed = false) (hrd : c.m_isReading = true)
    (hop1 : op ≠ Opcode.Text) (hop2 : op ≠ Opcode.Binary)
    (hop3 : op ≠ Opcode.Close) :
    (step (run acts)
        (Act.recvComplete c.m_id (ReadResult.rvalid op msg))).events =
      (run acts).events ∧
    (step (run acts)
        (Act.recvComplete c.m_id (ReadResult.rvalid op msg))).logs =
      (run acts).logs ++ [LogMsg.unknownOpcode c.m_id op] ∧
    (c.m_id, ({ c with m_isReading := true } : Connection)) ∈
      (step (run acts)
        (Act.recvComplete c.m_id (ReadResult.rvalid op msg))).table.m_connections ∧
    ({ c with m_isReading := true } : Connection).m_isClosed = false ∧
    c.m_id ∈ (step (run acts)
      (Act.recvComplete c.m_id (ReadResult.rvalid op msg))).pendingReads := by
  have h := inv_run acts
  have hc : (c.m_id, c) ∈ (run acts).table.m_connections := find_some_mem hfind
  have hcnt := h.readCount (c.m_id, c) hc
  rw [hrd, if_pos rfl] at hcnt
  have hmem : c.m_id ∈ (run acts).pendingReads :=
    List.count_pos_iff.mp (by rw [hcnt]; exact Nat.one_pos)
  simp only [step]
  rw [if_pos hmem]
  rcases hfind2 : (run acts).table.find c.m_id with _ | c'
  · rw [hfind] at hfind2; cases hfind2
  · rw [hfind] at hfind2
    have hc' : c = c' := Option.some.inj hfind2
    subst hc'
    simp only [onRecvComplete]
    rw [if_pos (show (!({ c with m_isReading := false } :
      Connection).m_isClosed) = true by simp [hopen])]
    rw [if_neg hop3]
    simp only [ServerLogic.processFrame]
    rw [if_neg (show ¬(op = Opcode.Text ∨ op = Opcode.Binary) from by
      rintro (he | he)
      · exact hop1 he
      · exact hop2 he)]
    simp only [beginRecvFrame]
    refine ⟨by trivial, by trivial, ?_, hopen, ?_⟩
    · exact mem_tblUpdate_self (c := { c with m_isReading := true })
        (mem_tblUpdate_self (c := { c with m_isReading := false }) hc)
    · exact List.mem_append.mpr (Or.inr (List.mem_singleton.mpr rfl))

theorem C8_witness :
    (step (run [Act.accept true])
        (Act.recvComplete 1 (ReadResult.rvalid Opcode.Ping "x"))).events =
      (run [Act.accept true]).events ∧
    (step (run [Act.accept true])
        (Act.recvComplete 1 (ReadResult.rvalid Opcode.Ping "x"))).logs =
      (run [Act.accept true]).logs ++ [LogMsg.unknownOpcode 1 Opcode.Ping] ∧
    (1, ({ m_id := 1, m_isReading := true } : Connection)) ∈
      (step (run [Act.accept true])
        (Act.recvComplete 1 (ReadResult.rvalid Opcode.Ping "x"))).table.m_connections ∧
    ({ ({ m_id := 1, m_isReading := true } : Connection) with
        m_isReading := true } : Connection).m_isClosed = false ∧
    1 ∈ (step (run [Act.accept true])
      (Act.recvComplete 1 (ReadResult.rvalid Opcode.Ping "x"))).pendingReads :=
  C8_unknown_opcode_logged_ignored [Act.accept true]
    ({ m_id := 1, m_isReading := true } : Connection) Opcode.Ping "x"
    (by decide) rfl rfl (by decide) (by decide) (by decide)

/-- A successful write completion on a closed connection whose queue holds
exactly one frame: the frame goes out on the wire, the connection is erased
from the table, and no event is emitted. -/
theorem closed_sendComplete {S : Sys} (h : SysInv S) {b : Connection}
    {f : ServerFrame}
    (hfind : S.table.find b.m_id = some b)
    (hcl : b.m_isClosed = true) (hrd : b.m_isReading = false)
    (hsend : b.m_isSending = true) (hq : b.m_sendQueue = [f]) :
    (step S (Act.sendComplete b.m_id false)).wire = S.wire ++ [(b.m_id, f)] ∧
    b.m_id ∉ tblIds (step S (Act.sendComplete b.m_id false)) ∧
    (step S (Act.sendComplete b.m_id false)).events = S.events := by
  have hc : (b.m_id, b) ∈ S.table.m_connections := find_some_mem hfind
  have hcnt := h.sendCount (b.m_id, b) hc
  rw [hsend, if_pos rfl] at hcnt
  have hmem : b.m_id ∈ S.pendingWrites :=
    List.count_pos_iff.mp (by rw [hcnt]; exact Nat.one_pos)
  simp only [step]
  rw [if_pos hmem]
  rcases hfind2 : S.table.find b.m_id with _ | d
  · rw [hfind] at hfind2; cases hfind2
  · rw [hfind] at hfind2
    have he : b = d := Option.some.inj hfind2
    subst he
    simp only [onSendComplete, Bool.false_eq_true, if_false]
    rw [if_neg (show ¬((!({ b with m_isSending := false } : Connection).m_isClosed) = true) by simp [hcl])]
    rw [drop_eq_of_closed (show ({ b with m_isSending := false } : Connection).m_isClosed = true from hcl)]
    rw [if_pos (show ((!({ b with m_isSending := false } : Connection).m_isReading && !({ b with m_isSending := false } : Connection).m_isSending) = true) by simp [hrd])]
    refine ⟨?_, ?_, by trivial⟩
    · show S.wire ++
        ((b.m_sendQueue.head?.map (fun g => (b.m_id, g))).toList) = _
      rw [hq]
      rfl
    · intro hm
      exact (mem_keys_erase.mp hm).2 rfl

/-- C4: receiving a valid Close frame while open with an empty send queue:
the server (1) queues its own Close reply through the normal send path and
starts the write, (2) closes the connection and fires exactly one
`Disconnect`; once the reply write completes, (3) the Close frame is on the
wire and (4) the connection has been removed, with no further event. -/
theorem C4_close_frame_replied_then_removed (acts : List Act)
    (c : Connection) (msg : String)
    (hfind : (run acts).table.find c.m_id = some c)
    (hopen : c.m_isClosed = false) (hrd : c.m_isReading = true)
    (hq : c.m_sendQueue = []) (_hns : c.m_isSending = false) :
    (step (run acts) (Act.recvComplete c.m_id (ReadResult.rvalid Opcode.Close msg))).events = (run acts).events ++ [(Event.Disconnect, c.m_id, "")] ∧
    (c.m_id, ({ m_id := c.m_id, m_isSending := true, m_isReading := false, m_isClosed := true, m_sendQueue := [⟨Opcode.Close, ""⟩] } : Connection)) ∈ (step (run acts) (Act.recvComplete c.m_id (ReadResult.rvalid Opcode.Close msg))).table.m_connections ∧
    c.m_id ∈ (step (run acts) (Act.recvComplete c.m_id (ReadResult.rvalid Opcode.Close msg))).pendingWrites ∧
    (step (step (run acts) (Act.recvComplete c.m_id (ReadResult.rvalid Opcode.Close msg))) (Act.sendComplete c.m_id false)).wire = (run acts).wire ++ [(c.m_id, ⟨Opcode.Close, ""⟩)] ∧
    c.m_id ∉ tblIds (step (step (run acts) (Act.recvComplete c.m_id (ReadResult.rvalid Opcode.Close msg))) (Act.sendComplete c.m_id false)) ∧
    (step (step (run acts) (Act.recvComplete c.m_id (ReadResult.rvalid Opcode.Close msg))) (Act.sendComplete c.m_id false)).events = (step (run acts) (Act.recvComplete c.m_id (ReadResult.rvalid Opcode.Close msg))).events := by
  have h := inv_run acts
  have hc : (c.m_id, c) ∈ (run acts).table.m_connections := find_some_mem hfind
  have hcnt := h.readCount (c.m_id, c) hc
  rw [hrd, if_pos rfl] at hcnt
  have hmem : c.m_id ∈ (run acts).pendingReads :=
    List.count_pos_iff.mp (by rw [hcnt]; exact Nat.one_pos)
  have h1all :
      (step (run acts) (Act.recvComplete c.m_id (ReadResult.rvalid Opcode.Close msg))).events = (run acts).events ++ [(Event.Disconnect, c.m_id, "")] ∧
      (c.m_id, ({ m_id := c.m_id, m_isSending := true, m_isReading := false, m_isClosed := true, m_sendQueue := [⟨Opcode.Close, ""⟩] } : Connection)) ∈ (step (run acts) (Act.recvComplete c.m_id (ReadResult.rvalid Opcode.Close msg))).table.m_connections ∧
      c.m_id ∈ (step (run acts) (Act.recvComplete c.m_id (ReadResult.rvalid Opcode.Close msg))).pendingWrites ∧
      (step (run acts) (Act.recvComplete c.m_id (ReadResult.rvalid Opcode.Close msg))).wire = (run acts).wire := by
    simp only [step]
    rw [if_pos hmem]
    rcases hfind2 : (run acts).table.find c.m_id with _ | c'
    · rw [hfind] at hfind2; cases hfind2
    · rw [hfind] at hfind2
      have hce : c = c' := Option.some.inj hfind2
      subst hce
      simp only [onRecvComplete]
      rw [if_pos (show (!({ c with m_isReading := false } : Connection).m_isClosed) = true by simp [hopen])]
      rw [if_pos trivial]
      simp only [sendFrame]
      rw [if_pos (show ((({ c with m_isReading := false } : Connection).m_sendQueue ++ [(⟨Opcode.Close, ""⟩ : ServerFrame)]).length = 1) by simp [hq])]
      simp only [sendNext]
      rw [drop_eq_of_open (show ({ c with m_isReading := false, m_sendQueue := c.m_sendQueue ++ [⟨Opcode.Close, ""⟩], m_isSending := true } : Connection).m_isClosed = false from hopen)]
      rw [if_neg (show ¬((!({ c with m_isReading := false, m_sendQueue := c.m_sendQueue ++ [⟨Opcode.Close, ""⟩], m_isSending := true } : Connection).m_isReading && !({ c with m_isReading := false, m_sendQueue := c.m_sendQueue ++ [⟨Opcode.Close, ""⟩], m_isSending := true } : Connection).m_isSending) = true) by simp)]
      rw [hq]
      simp only [List.nil_append]
      refine ⟨by trivial, ?_, ?_, by trivial⟩
      · exact mem_tblUpdate_self (c := { m_id := c.m_id, m_isSending := true, m_isReading := false, m_isClosed := true, m_sendQueue := [⟨Opcode.Close, ""⟩] }) (mem_tblUpdate_self (c := { c with m_isReading := false, m_sendQueue := [⟨Opcode.Close, ""⟩], m_isSending := true }) (mem_tblUpdate_self (c := { c with m_isReading := false, m_sendQueue := [⟨Opcode.Close, ""⟩] }) (mem_tblUpdate_self (c := { c with m_isReading := false, m_sendQueue := [] }) hc)))
      · exact List.mem_append.mpr (Or.inr (List.mem_singleton.mpr rfl))
  have hInv1 := inv_step h
    (Act.recvComplete c.m_id (ReadResult.rvalid Opcode.Close msg))
  have hfind1 : (step (run acts) (Act.recvComplete c.m_id (ReadResult.rvalid Opcode.Close msg))).table.find c.m_id = some ({ m_id := c.m_id, m_isSending := true, m_isReading := false, m_isClosed := true, m_sendQueue := [⟨Opcode.Close, ""⟩] } : Connection) :=
    find_eq_some_of_mem hInv1.nodup h1all.2.1
  have hC := closed_sendComplete hInv1
    (b := { m_id := c.m_id, m_isSending := true, m_isReading := false, m_isClosed := true, m_sendQueue := [⟨Opcode.Close, ""⟩] })
    hfind1 rfl rfl rfl rfl
  refine ⟨h1all.1, h1all.2.1, h1all.2.2.1, ?_, hC.2.1, hC.2.2⟩
  rw [hC.1, h1all.2.2.2]

theorem C4_witness :
    (step (run [Act.accept true]) (Act.recvComplete 1 (ReadResult.rvalid Opcode.Close "bye"))).events = (run [Act.accept true]).events ++ [(Event.Disconnect, 1, "")] ∧
    (1, ({ m_id := 1, m_isSending := true, m_isReading := false, m_isClosed := true, m_sendQueue := [⟨Opcode.Close, ""⟩] } : Connection)) ∈ (step (run [Act.accept true]) (Act.recvComplete 1 (ReadResult.rvalid Opcode.Close "bye"))).table.m_connections ∧
    1 ∈ (step (run [Act.accept true]) (Act.recvComplete 1 (ReadResult.rvalid Opcode.Close "bye"))).pendingWrites ∧
    (step (step (run [Act.accept true]) (Act.recvComplete 1 (ReadResult.rvalid Opcode.Close "bye"))) (Act.sendComplete 1 false)).wire = (run [Act.accept true]).wire ++ [(1, ⟨Opcode.Close, ""⟩)] ∧
    1 ∉ tblIds (step (step (run [Act.accept true]) (Act.recvComplete 1 (ReadResult.rvalid Opcode.Close "bye"))) (Act.sendComplete 1 false)) ∧
    (step (step (run [Act.accept true]) (Act.recvComplete 1 (ReadResult.rvalid Opcode.Close "bye"))) (Act.sendComplete 1 false)).events = (step (run [Act.accept true]) (Act.recvComplete 1 (ReadResult.rvalid Opcode.Close "bye"))).events :=
  C4_close_frame_replied_then_removed [Act.accept true]
    ({ m_id := 1, m_isReading := true } : Connection) "bye"
    (by decide) rfl rfl rfl rfl

/-- The posted `send(id, msg, isBinary=false)` work item is exactly
`sendFrame` with a Text opcode on the found connection. -/
theorem apiSend_text {S : Sys} {c : Connection}
    (hfind : S.table.find c.m_id = some c) (m : String) :
    step S (Act.apiSend c.m_id m false) = (sendFrame S c Opcode.Text m).1 := by
  simp only [step]
  rcases hfind2 : S.table.find c.m_id with _ | c'
  · rw [hfind] at hfind2; cases hfind2
  · rw [hfind] at hfind2
    have hce : c = c' := Option.some.inj hfind2
    subst hce
    rfl

/-- `sendFrame` on an empty queue: the frame is queued and the write is
started (queue transitioned from empty to one element). -/
theorem sendFrame_empty {S : Sys} {c : Connection} (hq : c.m_sendQueue = [])
    (op : Opcode) (d : String) :
    (sendFrame S c op d).1 =
      { S with table := tblUpdate (tblUpdate S.table { c with m_sendQueue := [⟨op, d⟩] }) { c with m_sendQueue := [⟨op, d⟩], m_isSending := true },
               pendingWrites := S.pendingWrites ++ [c.m_id] } := by
  simp only [sendFrame]
  rw [if_pos (by simp [hq])]
  simp only [sendNext]
  rw [hq]
  rfl

/-- `sendFrame` on a nonempty queue: the frame is appended in FIFO order
and NO new write is started (one is already outstanding). -/
theorem sendFrame_nonempty {S : Sys} {c : Connection}
    (hne : c.m_sendQueue ≠ []) (op : Opcode) (d : String) :
    (sendFrame S c op d).1 =
      { S with table := tblUpdate S.table { c with m_sendQueue := c.m_sendQueue ++ [⟨op, d⟩] } } := by
  simp only [sendFrame]
  rw [if_neg (show ¬((c.m_sendQueue ++ [(⟨op, d⟩ : ServerFrame)]).length = 1)
    from by
      simp only [List.length_append, List.length_singleton]
      intro hlen
      exact hne (List.length_eq_zero.mp (by omega)))]

/-- Successful write completion on an open connection with more frames
queued: the completed frame goes on the wire, is popped, and the next
send is started — at most one write stays outstanding. -/
theorem open_sendComplete_more {S : Sys} (h : SysInv S) {c : Connection}
    {f g : ServerFrame} {rest : List ServerFrame}
    (hfind : S.table.find c.m_id = some c) (hcl : c.m_isClosed = false)
    (hsend : c.m_isSending = true) (hq : c.m_sendQueue = f :: g :: rest) :
    (step S (Act.sendComplete c.m_id false)).wire = S.wire ++ [(c.m_id, f)] ∧
    (step S (Act.sendComplete c.m_id false)).events = S.events ∧
    (c.m_id, ({ c with m_sendQueue := g :: rest, m_isSending := true } : Connection)) ∈
      (step S (Act.sendComplete c.m_id false)).table.m_connections := by
  have hc : (c.m_id, c) ∈ S.table.m_connections := find_some_mem hfind
  have hcnt := h.sendCount (c.m_id, c) hc
  rw [hsend, if_pos rfl] at hcnt
  have hmem : c.m_id ∈ S.pendingWrites :=
    List.count_pos_iff.mp (by rw [hcnt]; exact Nat.one_pos)
  simp only [step]
  rw [if_pos hmem]
  rcases hfind2 : S.table.find c.m_id with _ | c''
  · rw [hfind] at hfind2; cases hfind2
  · rw [hfind] at hfind2
    have he : c = c'' := Option.some.inj hfind2
    subst he
    simp only [onSendComplete, Bool.false_eq_true, if_false]
    rw [if_pos (show (!({ c with m_isSending := false } : Connection).m_isClosed) = true by simp [hcl])]
    rw [hq]
    simp only [List.tail_cons, List.head?_cons]
    rw [if_pos (show (!(g :: rest).isEmpty) = true by simp)]
    simp only [sendNext]
    refine ⟨by trivial, by trivial, ?_⟩
    exact mem_tblUpdate_self
      (c := { c with m_sendQueue := g :: rest, m_isSending := true })
      (mem_tblUpdate_self
        (c := { c with m_isSending := false, m_sendQueue := g :: rest })
        (mem_tblUpdate_self
          (c := { c with m_isSending := false, m_sendQueue := f :: g :: rest }) hc))

/-- Successful write completion on an open connection with a single queued
frame: the frame goes on the wire, the queue empties, and no new write is
started; the connection stays registered and open. -/
theorem open_sendComplete_last {S : Sys} (h : SysInv S) {c : Connection}
    {f : ServerFrame}
    (hfind : S.table.find c.m_id = some c) (hcl : c.m_isClosed = false)
    (hsend : c.m_isSending = true) (hq : c.m_sendQueue = [f]) :
    (step S (Act.sendComplete c.m_id false)).wire = S.wire ++ [(c.m_id, f)] ∧
    (step S (Act.sendComplete c.m_id false)).events = S.events ∧
    (c.m_id, ({ c with m_isSending := false, m_sendQueue := [] } : Connection)) ∈
      (step S (Act.sendComplete c.m_id false)).table.m_connections := by
  have hc : (c.m_id, c) ∈ S.table.m_connections := find_some_mem hfind
  have hcnt := h.sendCount (c.m_id, c) hc
  rw [hsend, if_pos rfl] at hcnt
  have hmem : c.m_id ∈ S.pendingWrites :=
    List.count_pos_iff.mp (by rw [hcnt]; exact Nat.one_pos)
  simp only [step]
  rw [if_pos hmem]
  rcases hfind2 : S.table.find c.m_id with _ | c''
  · rw [hfind] at hfind2; cases hfind2
  · rw [hfind] at hfind2
    have he : c = c'' := Option.some.inj hfind2
    subst he
    simp only [onSendComplete, Bool.false_eq_true, if_false]
    rw [if_pos (show (!({ c with m_isSending := false } : Connection).m_isClosed) = true by simp [hcl])]
    rw [hq]
    simp only [List.tail_cons, List.head?_cons]
    rw [if_neg (show ¬((!(([] : List ServerFrame)).isEmpty) = true) by simp)]
    refine ⟨by trivial, by trivial, ?_⟩
    exact mem_tblUpdate_self
      (c := { c with m_isSending := false, m_sendQueue := [] })
      (mem_tblUpdate_self
        (c := { c with m_isSending := false, m_sendQueue := [f] }) hc)

/-- C6: `sendFrame` appends frames to a FIFO queue and starts a transport
write only when the queue transitions from empty to one element, so at most
one write is outstanding per connection (conjunct 1, for every reachable
state). Scenario (conjuncts 2-6): two messages sent back-to-back on an open
connection with an empty queue before either write completes — the first
`send` starts the single write, the second only appends (no new outstanding
write), the queue holds both frames in order, and after the two write
completions both frames reach the wire in FIFO order with no extra events. -/
theorem C6_fifo_single_writer (acts : List Act) (c : Connection) (m1 m2 : String)
    (hfind : (run acts).table.find c.m_id = some c)
    (hopen : c.m_isClosed = false)
    (hq : c.m_sendQueue = []) :
    (∀ id, ((run acts).pendingWrites.count id) ≤ 1) ∧
    (step (run acts) (Act.apiSend c.m_id m1 false)).pendingWrites = (run acts).pendingWrites ++ [c.m_id] ∧
    (step (step (run acts) (Act.apiSend c.m_id m1 false)) (Act.apiSend c.m_id m2 false)).pendingWrites = (step (run acts) (Act.apiSend c.m_id m1 false)).pendingWrites ∧
    (c.m_id, ({ c with m_sendQueue := [⟨Opcode.Text, m1⟩, ⟨Opcode.Text, m2⟩], m_isSending := true } : Connection)) ∈ (step (step (run acts) (Act.apiSend c.m_id m1 false)) (Act.apiSend c.m_id m2 false)).table.m_connections ∧
    (step (step (step (step (run acts) (Act.apiSend c.m_id m1 false)) (Act.apiSend c.m_id m2 false)) (Act.sendComplete c.m_id false)) (Act.sendComplete c.m_id false)).wire = (run acts).wire ++ [(c.m_id, ⟨Opcode.Text, m1⟩), (c.m_id, ⟨Opcode.Text, m2⟩)] ∧
    (step (step (step (step (run acts) (Act.apiSend c.m_id m1 false)) (Act.apiSend c.m_id m2 false)) (Act.sendComplete c.m_id false)) (Act.sendComplete c.m_id false)).events = (run acts).events := by
  have hInv : SysInv (run acts) := inv_run acts
  have hc : (c.m_id, c) ∈ (run acts).table.m_connections := find_some_mem hfind
  have hs1 : step (run acts) (Act.apiSend c.m_id m1 false) = { run acts with table := tblUpdate (tblUpdate (run acts).table { c with m_sendQueue := [⟨Opcode.Text, m1⟩] }) { c with m_sendQueue := [⟨Opcode.Text, m1⟩], m_isSending := true }, pendingWrites := (run acts).pendingWrites ++ [c.m_id] } :=
    (apiSend_text hfind m1).trans (sendFrame_empty hq Opcode.Text m1)
  have hfind1 : (tblUpdate (tblUpdate (run acts).table { c with m_sendQueue := [⟨Opcode.Text, m1⟩] }) { c with m_sendQueue := [⟨Opcode.Text, m1⟩], m_isSending := true }).find c.m_id = some ({ c with m_sendQueue := [⟨Opcode.Text, m1⟩], m_isSending := true } : Connection) :=
    find_eq_some_of_mem (nodup_keys_tblUpdate (nodup_keys_tblUpdate hInv.nodup))
      (mem_tblUpdate_self (c := { c with m_sendQueue := [⟨Opcode.Text, m1⟩], m_isSending := true })
        (mem_tblUpdate_self (c := { c with m_sendQueue := [⟨Opcode.Text, m1⟩] }) hc))
  have hs2 : step ({ run acts with table := tblUpdate (tblUpdate (run acts).table { c with m_sendQueue := [⟨Opcode.Text, m1⟩] }) { c with m_sendQueue := [⟨Opcode.Text, m1⟩], m_isSending := true }, pendingWrites := (run acts).pendingWrites ++ [c.m_id] } : Sys) (Act.apiSend c.m_id m2 false) = { run acts with table := tblUpdate (tblUpdate (tblUpdate (run acts).table { c with m_sendQueue := [⟨Opcode.Text, m1⟩] }) { c with m_sendQueue := [⟨Opcode.Text, m1⟩], m_isSending := true }) { c with m_sendQueue := [⟨Opcode.Text, m1⟩, ⟨Opcode.Text, m2⟩], m_isSending := true }, pendingWrites := (run acts).pendingWrites ++ [c.m_id] } :=
    (apiSend_text (S := { run acts with table := tblUpdate (tblUpdate (run acts).table { c with m_sendQueue := [⟨Opcode.Text, m1⟩] }) { c with m_sendQueue := [⟨Opcode.Text, m1⟩], m_isSending := true }, pendingWrites := (run acts).pendingWrites ++ [c.m_id] }) (c := { c with m_sendQueue := [⟨Opcode.Text, m1⟩], m_isSending := true }) hfind1 m2).trans
      (sendFrame_nonempty (S := { run acts with table := tblUpdate (tblUpdate (run acts).table { c with m_sendQueue := [⟨Opcode.Text, m1⟩] }) { c with m_sendQueue := [⟨Opcode.Text, m1⟩], m_isSending := true }, pendingWrites := (run acts).pendingWrites ++ [c.m_id] }) (c := { c with m_sendQueue := [⟨Opcode.Text, m1⟩], m_isSending := true }) (by simp) Opcode.Text m2)
  have hi1 : SysInv (step (run acts) (Act.apiSend c.m_id m1 false)) := inv_step hInv _
  rw [hs1] at hi1
  have hi2 : SysInv (step ({ run acts with table := tblUpdate (tblUpdate (run acts).table { c with m_sendQueue := [⟨Opcode.Text, m1⟩] }) { c with m_sendQueue := [⟨Opcode.Text, m1⟩], m_isSending := true }, pendingWrites := (run acts).pendingWrites ++ [c.m_id] } : Sys) (Act.apiSend c.m_id m2 false)) := inv_step hi1 _
  rw [hs2] at hi2
  have hmem2 : (c.m_id, ({ c with m_sendQueue := [⟨Opcode.Text, m1⟩, ⟨Opcode.Text, m2⟩], m_isSending := true } : Connection)) ∈ (tblUpdate (tblUpdate (tblUpdate (run acts).table { c with m_sendQueue := [⟨Opcode.Text, m1⟩] }) { c with m_sendQueue := [⟨Opcode.Text, m1⟩], m_isSending := true }) { c with m_sendQueue := [⟨Opcode.Text, m1⟩, ⟨Opcode.Text, m2⟩], m_isSending := true }).m_connections :=
    mem_tblUpdate_self (c := { c with m_sendQueue := [⟨Opcode.Text, m1⟩, ⟨Opcode.Text, m2⟩], m_isSending := true })
      (mem_tblUpdate_self (c := { c with m_sendQueue := [⟨Opcode.Text, m1⟩], m_isSending := true })
        (mem_tblUpdate_self (c := { c with m_sendQueue := [⟨Opcode.Text, m1⟩] }) hc))
  have hfind2 : ({ run acts with table := tblUpdate (tblUpdate (tblUpdate (run acts).table { c with m_sendQueue := [⟨Opcode.Text, m1⟩] }) { c with m_sendQueue := [⟨Opcode.Text, m1⟩], m_isSending := true }) { c with m_sendQueue := [⟨Opcode.Text, m1⟩, ⟨Opcode.Text, m2⟩], m_isSending := true }, pendingWrites := (run acts).pendingWrites ++ [c.m_id] } : Sys).table.find c.m_id = some ({ c with m_sendQueue := [⟨Opcode.Text, m1⟩, ⟨Opcode.Text, m2⟩], m_isSending := true } : Connection) :=
    find_eq_some_of_mem hi2.nodup hmem2
  have h3 := open_sendComplete_more (c := { c with m_sendQueue := [⟨Opcode.Text, m1⟩, ⟨Opcode.Text, m2⟩], m_isSending := true }) (f := ⟨Opcode.Text, m1⟩) (g := ⟨Opcode.Text, m2⟩) hi2 hfind2 hopen rfl rfl
  have hi3 : SysInv (step ({ run acts with table := tblUpdate (tblUpdate (tblUpdate (run acts).table { c with m_sendQueue := [⟨Opcode.Text, m1⟩] }) { c with m_sendQueue := [⟨Opcode.Text, m1⟩], m_isSending := true }) { c with m_sendQueue := [⟨Opcode.Text, m1⟩, ⟨Opcode.Text, m2⟩], m_isSending := true }, pendingWrites := (run acts).pendingWrites ++ [c.m_id] } : Sys) (Act.sendComplete c.m_id false)) := inv_step hi2 _
  have hfind3 : (step ({ run acts with table := tblUpdate (tblUpdate (tblUpdate (run acts).table { c with m_sendQueue := [⟨Opcode.Text, m1⟩] }) { c with m_sendQueue := [⟨Opcode.Text, m1⟩], m_isSending := true }) { c with m_sendQueue := [⟨Opcode.Text, m1⟩, ⟨Opcode.Text, m2⟩], m_isSending := true }, pendingWrites := (run acts).pendingWrites ++ [c.m_id] } : Sys) (Act.sendComplete c.m_id false)).table.find c.m_id = some ({ c with m_sendQueue := [⟨Opcode.Text, m2⟩], m_isSending := true } : Connection) :=
    find_eq_some_of_mem hi3.nodup h3.2.2
  have h4 := open_sendComplete_last (c := { c with m_sendQueue := [⟨Opcode.Text, m2⟩], m_isSending := true }) (f := ⟨Opcode.Text, m2⟩) hi3 hfind3 hopen rfl rfl
  refine ⟨?_, ?_, ?_, ?_, ?_, ?_⟩
  · intro id
    by_cases hm : id ∈ (run acts).pendingWrites
    · obtain ⟨p, hp, hpe⟩ := List.mem_map.mp (hInv.writesInTbl id hm)
      have hcnt := hInv.sendCount p hp
      rw [hpe] at hcnt
      rw [hcnt]
      split
      · exact Nat.le_refl 1
      · exact Nat.zero_le 1
    · simp [List.count_eq_zero_of_not_mem hm]
  · rw [hs1]
  · rw [hs1, hs2]
  · rw [hs1, hs2]
    exact hmem2
  · rw [hs1, hs2]
    rw [h4.1, h3.1]
    simp [List.append_assoc]
  · rw [hs1, hs2]
    rw [h4.2.1, h3.2.1]

theorem C6_witness :
    (step (run [Act.accept true]) (Act.apiSend 1 "hello" false)).pendingWrites = (run [Act.accept true]).pendingWrites ++ [1] ∧
    (step (step (run [Act.accept true]) (Act.apiSend 1 "hello" false)) (Act.apiSend 1 "world" false)).pendingWrites = (step (run [Act.accept true]) (Act.apiSend 1 "hello" false)).pendingWrites ∧
    (1, ({ m_id := 1, m_isReading := true, m_sendQueue := [⟨Opcode.Text, "hello"⟩, ⟨Opcode.Text, "world"⟩], m_isSending := true } : Connection)) ∈ (step (step (run [Act.accept true]) (Act.apiSend 1 "hello" false)) (Act.apiSend 1 "world" false)).table.m_connections ∧
    (step (step (step (step (run [Act.accept true]) (Act.apiSend 1 "hello" false)) (Act.apiSend 1 "world" false)) (Act.sendComplete 1 false)) (Act.sendComplete 1 false)).wire = (run [Act.accept true]).wire ++ [(1, ⟨Opcode.Text, "hello"⟩), (1, ⟨Opcode.Text, "world"⟩)] ∧
    (step (step (step (step (run [Act.accept true]) (Act.apiSend 1 "hello" false)) (Act.apiSend 1 "world" false)) (Act.sendComplete 1 false)) (Act.sendComplete 1 false)).events = (run [Act.accept true]).events :=
  (C6_fifo_single_writer [Act.accept true]
    ({ m_id := 1, m_isReading := true } : Connection) "hello" "world"
    (by decide) rfl rfl).2
